import Mathlib

/-!
# Verification of the `LRUCache` class (src/backend/src/utils/LRUCache.ts)

A shallow embedding of the hand-rolled TTL-aware LRU cache of the
seating-arrangement backend.  The JavaScript `Map` (key → node object) is
modelled as an association list `cache : List (Key × NodeId)` with JS `Map`
semantics (insertion order, in-place update), and the mutable node objects
live in an `arena : List (NodeId × Node V)`; node identity (JS object
identity) is the `NodeId`, allocated from a counter.  `Date.now()` readings
are passed in explicitly as integer parameters, one per call site in the
source.  Field assignments on node objects become point updates of the arena.
-/

set_option autoImplicit false

namespace LRUSpec

abbrev Key := String
abbrev NodeId := Nat

/-- One cache node, as in the source interface `CacheNode<T>`:
key, value, timestamp, and the optional prev/next links of the intrusive
doubly linked recency list (links are node identities). -/
structure Node (V : Type) where
  key : Key
  value : V
  timestamp : Int
  prev : Option NodeId
  next : Option NodeId
  deriving Repr, DecidableEq

/-! ## Association-list primitives modelling the JS `Map` and the node arena -/

/-- Lookup by key, first match (JS `Map.get`). -/
def alookup {κ : Type} [DecidableEq κ] {α : Type} : List (κ × α) → κ → Option α
  | [], _ => none
  | (k, v) :: rest, j => if k = j then some v else alookup rest j

/-- JS `Map.set`: update in place if the key is present (keeping its
insertion position), otherwise append at the end. -/
def mapSet {κ : Type} [DecidableEq κ] {α : Type} : List (κ × α) → κ → α → List (κ × α)
  | [], k, v => [(k, v)]
  | (k0, v0) :: rest, k, v =>
      if k0 = k then (k0, v) :: rest else (k0, v0) :: mapSet rest k v

/-- JS `Map.delete`: remove the entry with the given key, if present. -/
def aerase {κ : Type} [DecidableEq κ] {α : Type} : List (κ × α) → κ → List (κ × α)
  | [], _ => []
  | (k0, v0) :: rest, k => if k0 = k then rest else (k0, v0) :: aerase rest k

/-- Mutate the object stored under a key (a JS field assignment
`obj.f = x` on the node found under identity `j`). -/
def amodify {κ : Type} [DecidableEq κ] {α : Type} : List (κ × α) → κ → (α → α) → List (κ × α)
  | [], _, _ => []
  | (k0, v0) :: rest, j, f =>
      if k0 = j then (k0, f v0) :: rest else (k0, v0) :: amodify rest j f

/-! ## The cache state -/

/-- The whole mutable state of one `LRUCache<T>` instance: configuration,
the key index (`this.cache`), the node arena with `head`/`tail` of the
recency list, the stats counters, and the rolling latency window.
`statsSize` is the source's `this.stats.size` field (kept separately from
the index, exactly as in the source). `nextId` allocates node identities. -/
structure LRU (V : Type) where
  capacity : Int
  ttl : Int
  cache : List (Key × NodeId)
  arena : List (NodeId × Node V)
  head : Option NodeId
  tail : Option NodeId
  hits : Nat
  misses : Nat
  statsSize : Int
  responseTimes : List Int
  nextId : NodeId
  deriving Repr

/-- Source `constructor(capacity, ttlSeconds = 60)`: stores the configuration
(`ttl = ttlSeconds * 1000` milliseconds) and starts empty.  The source
performs no validation of `capacity` or `ttlSeconds`. -/
def mkLRUCache (V : Type) (capacity : Int) (ttlSeconds : Int := 60) : LRU V :=
  { capacity := capacity
    ttl := ttlSeconds * 1000
    cache := []
    arena := []
    head := none
    tail := none
    hits := 0
    misses := 0
    statsSize := 0
    responseTimes := []
    nextId := 0 }

variable {V : Type}

/-- Source `addToHead(node)`: `node.prev = undefined; node.next = this.head;
if (this.head) this.head.prev = node; this.head = node;
if (!this.tail) this.tail = node;` -/
def addToHead (s : LRU V) (i : NodeId) : LRU V :=
  let ar1 := amodify s.arena i (fun n => { n with prev := none })
  let ar2 := amodify ar1 i (fun n => { n with next := s.head })
  let ar3 := match s.head with
    | some h => amodify ar2 h (fun n => { n with prev := some i })
    | none => ar2
  { s with arena := ar3
           head := some i
           tail := match s.tail with
             | none => some i
             | some t => some t }

/-- Source `removeNode(node)`: splice the node out of the doubly linked list,
updating `head`/`tail` when the node was at an end. -/
def removeNode (s : LRU V) (i : NodeId) : LRU V :=
  match alookup s.arena i with
  | none => s   -- unreachable: every node handle comes from the index
  | some node =>
    let s1 := match node.prev with
      | some p => { s with arena := amodify s.arena p (fun n => { n with next := node.next }) }
      | none => { s with head := node.next }
    match node.next with
      | some q => { s1 with arena := amodify s1.arena q (fun n => { n with prev := node.prev }) }
      | none => { s1 with tail := node.prev }

/-- Source `moveToHead(node)`: `removeNode` then `addToHead`. -/
def moveToHead (s : LRU V) (i : NodeId) : LRU V :=
  addToHead (removeNode s i) i

/-- Source `removeTail()`: if the list has a tail, splice it out, delete its key
from the index and decrement `stats.size`. -/
def removeTail (s : LRU V) : LRU V :=
  match s.tail with
  | none => s
  | some t =>
    match alookup s.arena t with
    | none => s   -- unreachable
    | some node =>
      let s1 := removeNode s t
      { s1 with cache := aerase s1.cache node.key
                statsSize := s1.statsSize - 1 }

/-- Source `recordResponseTime(time)`: push the sample; if more than 100 samples
are stored, drop the oldest (`shift()`). -/
def recordResponseTime (s : LRU V) (time : Int) : LRU V :=
  let rt := s.responseTimes ++ [time]
  { s with responseTimes := if rt.length > 100 then rt.drop 1 else rt }

/-- Source `delete(key)`: if absent return `false`; otherwise splice the node out
of the list, remove the key from the index, decrement `stats.size`,
return `true`. -/
def del (s : LRU V) (key : Key) : Bool × LRU V :=
  match alookup s.cache key with
  | none => (false, s)
  | some i =>
    let s1 := removeNode s i
    (true, { s1 with cache := aerase s1.cache key
                     statsSize := s1.statsSize - 1 })

/-- Source `get(key)`.  `t0` is the `Date.now()` reading taken as `startTime`,
`t1` the reading of the expiry check, `t2` the reading inside the final
`recordResponseTime(Date.now() - startTime)` call.  Returns the value
(`null` becomes `none`) and the successor state. -/
def get (s : LRU V) (t0 t1 t2 : Int) (key : Key) : Option V × LRU V :=
  match alookup s.cache key with
  | none =>
    (none, recordResponseTime { s with misses := s.misses + 1 } (t2 - t0))
  | some i =>
    match alookup s.arena i with
    | none => (none, s)   -- unreachable: the index only holds live nodes
    | some node =>
      if t1 - node.timestamp > s.ttl then
        let s1 := (del s key).2
        (none, recordResponseTime { s1 with misses := s1.misses + 1 } (t2 - t0))
      else
        let s1 := moveToHead s i
        (some node.value, recordResponseTime { s1 with hits := s1.hits + 1 } (t2 - t0))

/-- Source `set(key, value)` at time `t` (the `Date.now()` reading): update in
place and promote if present; otherwise create a node at the head,
increment `stats.size` and evict the tail if the index now exceeds
`capacity`. -/
def set (s : LRU V) (t : Int) (key : Key) (value : V) : LRU V :=
  match alookup s.cache key with
  | some i =>
    let s1 := { s with arena := amodify s.arena i (fun n => { n with value := value, timestamp := t }) }
    moveToHead s1 i
  | none =>
    let i := s.nextId
    let node : Node V := { key := key, value := value, timestamp := t, prev := none, next := none }
    let s1 := { s with arena := (i, node) :: s.arena
                       cache := mapSet s.cache key i
                       nextId := i + 1 }
    let s2 := addToHead s1 i
    let s3 := { s2 with statsSize := s2.statsSize + 1 }
    if (s3.cache.length : Int) > s3.capacity then removeTail s3 else s3

/-- Source `clear()`: empty the index and the list, reset `stats.size` and the
latency window.  Hit/miss counters and the configuration are untouched. -/
def clear (s : LRU V) : LRU V :=
  { s with cache := []
           head := none
           tail := none
           statsSize := 0
           responseTimes := [] }

/-- JS `Math.round`: round half toward positive infinity. -/
def jsRound (q : ℚ) : ℤ := ⌊q + 1/2⌋

/-- Source `calculateAverageResponseTime()`: `0` with no samples, otherwise
`Math.round((sum / length) * 100) / 100`. -/
def calculateAverageResponseTime (s : LRU V) : ℚ :=
  if s.responseTimes.length = 0 then 0
  else (jsRound (((s.responseTimes.foldl (· + ·) 0 : Int) : ℚ) / s.responseTimes.length * 100) : ℚ) / 100

/-- The record returned by `getStats()`. -/
structure Stats where
  hits : Nat
  misses : Nat
  size : Int
  averageResponseTime : ℚ
  deriving Repr, DecidableEq

/-- Source `getStats()`: counters, the separately tracked size field, and the
computed rolling average. -/
def getStats (s : LRU V) : Stats :=
  { hits := s.hits
    misses := s.misses
    size := s.statsSize
    averageResponseTime := calculateAverageResponseTime s }

/-- Source `cleanupExpired()` (the background sweep) at clock reading `now`:
collect every key whose age strictly exceeds the TTL (iterating the index
in insertion order), then `delete` each of them. -/
def cleanupExpired (s : LRU V) (now : Int) : LRU V :=
  let expiredKeys := (s.cache.filter (fun p =>
      match alookup s.arena p.2 with
      | some node => decide (now - node.timestamp > s.ttl)
      | none => false)).map Prod.fst
  expiredKeys.foldl (fun st k => (del st k).2) s

/-! ## Operation traces -/

/-- One public operation with its explicit clock readings. -/
inductive Op (V : Type) where
  | opGet (t0 t1 t2 : Int) (key : Key)
  | opSet (t : Int) (key : Key) (value : V)
  | opDel (key : Key)
  | opClear
  | opCleanup (now : Int)

/-- Run one public operation (result values discarded). -/
def runOp (s : LRU V) : Op V → LRU V
  | .opGet t0 t1 t2 key => (get s t0 t1 t2 key).2
  | .opSet t key value => set s t key value
  | .opDel key => (del s key).2
  | .opClear => clear s
  | .opCleanup now => cleanupExpired s now

/-- Run a trace of public operations, oldest first. -/
def runOps (s : LRU V) (ops : List (Op V)) : LRU V :=
  ops.foldl runOp s

/-! ## The recency list as a chain of linked nodes

`chainSeg ar p L q` states that the node identities in `L`, in order, form a
doubly linked segment inside the arena `ar`: the first node's `prev` is `p`,
consecutive nodes point at each other, and the last node's `next` is `q`.
The full recency list of a cache state is `chainSeg ar none L none` together
with `head = L.head?` and `tail = L.getLast?`. -/

/-- The link that precedes list `L` when `L` is followed by `q`: the first
identity of `L`, or `q` when `L` is empty. -/
def hd? (L : List NodeId) (q : Option NodeId) : Option NodeId :=
  match L with
  | [] => q
  | i :: _ => some i

/-- The last identity of `L`, or `p` when `L` is empty. -/
def lst? (p : Option NodeId) (L : List NodeId) : Option NodeId :=
  match L.getLast? with
  | some a => some a
  | none => p

/-- The two link fields of a node. -/
def links (n : Node V) : Option NodeId × Option NodeId := (n.prev, n.next)

/-- The non-link payload of a node: key, value, timestamp. -/
def payload (n : Node V) : Key × V × Int := (n.key, n.value, n.timestamp)

/-- Predicate: `L` is a doubly linked segment in arena `ar` with incoming `prev`-link
`p` and outgoing `next`-link `q`. -/
def chainSeg (ar : List (NodeId × Node V)) : Option NodeId → List NodeId → Option NodeId → Prop
  | _, [], _ => True
  | p, i :: rest, q =>
      ∃ n, alookup ar i = some n ∧ n.prev = p ∧ n.next = hd? rest q ∧
        chainSeg ar (some i) rest q


/-! ## The structural invariant -/

/-- Well-formedness of a cache state, witnessed by the abstract recency
order `L` (most-recently-used first).  This packages the spec's
index↔list bijection: the chain from `head` visits exactly the identities
of `L`, the index's identities are a permutation of `L`, every indexed
entry's node carries the indexing key, `head`/`tail` are the two ends of
`L`, and `stats.size` equals the index size.  `fresh` says every arena
identity is below the allocation counter. -/
structure WF (s : LRU V) (L : List NodeId) : Prop where
  chain : chainSeg s.arena none L none
  head_eq : s.head = L.head?
  tail_eq : s.tail = L.getLast?
  nodup : L.Nodup
  ids_perm : (s.cache.map Prod.snd).Perm L
  keys_nodup : (s.cache.map Prod.fst).Nodup
  key_coh : ∀ p ∈ s.cache, ∃ n, alookup s.arena p.2 = some n ∧ n.key = p.1
  size_eq : s.statsSize = (s.cache.length : Int)
  fresh : ∀ j ∈ s.arena.map Prod.fst, j < s.nextId


/-- Fields untouched by the list-relinking helpers. -/
def frameEq (s s' : LRU V) : Prop :=
  s'.capacity = s.capacity ∧ s'.ttl = s.ttl ∧ s'.cache = s.cache ∧
  s'.hits = s.hits ∧ s'.misses = s.misses ∧ s'.statsSize = s.statsSize ∧
  s'.responseTimes = s.responseTimes ∧ s'.nextId = s.nextId


/-- The intermediate state of `set` on an absent key, just after
`this.cache.set(key, newNode)` (node allocated, index extended). -/
def setS1 (s : LRU V) (t : Int) (k : Key) (v : V) : LRU V :=
  { s with arena := (s.nextId, { key := k, value := v, timestamp := t, prev := none, next := none }) :: s.arena,
           cache := mapSet s.cache k s.nextId,
           nextId := s.nextId + 1 }

/-- The state of `set` on an absent key just before the capacity check
(`addToHead` done, `stats.size` incremented). -/
def setS3 (s : LRU V) (t : Int) (k : Key) (v : V) : LRU V :=
  { addToHead (setS1 s t k v) s.nextId with
    statsSize := (addToHead (setS1 s t k v) s.nextId).statsSize + 1 }


/-- The keys collected by a sweep at clock reading `now`. -/
def expiredKeys (s : LRU V) (now : Int) : List Key :=
  (s.cache.filter (fun p =>
    match alookup s.arena p.2 with
    | some node => decide (now - node.timestamp > s.ttl)
    | none => false)).map Prod.fst


/-! ## Lemmas about the association-list primitives -/

section AList

variable {κ : Type} [DecidableEq κ] {α : Type}

theorem alookup_amodify (l : List (κ × α)) (j : κ) (f : α → α) (j' : κ) :
    alookup (amodify l j f) j' = if j' = j then (alookup l j).map f else alookup l j' := by
  induction l with
  | nil => simp [alookup, amodify]
  | cons p rest ih =>
    obtain ⟨k0, v0⟩ := p
    by_cases hk : k0 = j
    · subst hk
      by_cases hj : j' = k0
      · subst hj; simp [alookup, amodify]
      · simp [alookup, amodify, hj, Ne.symm hj]
    · by_cases hj : j' = k0
      · subst hj
        simp [alookup, amodify, hk, Ne.symm hk]
      · simp [alookup, amodify, hk, hj, Ne.symm hj, ih]

theorem map_fst_amodify (l : List (κ × α)) (j : κ) (f : α → α) :
    (amodify l j f).map Prod.fst = l.map Prod.fst := by
  induction l with
  | nil => rfl
  | cons p rest ih =>
    obtain ⟨k0, v0⟩ := p
    by_cases hk : k0 = j <;> simp [amodify, hk, ih]

theorem alookup_eq_none_iff (l : List (κ × α)) (k : κ) :
    alookup l k = none ↔ k ∉ l.map Prod.fst := by
  induction l with
  | nil => simp [alookup]
  | cons p rest ih =>
    obtain ⟨k0, v0⟩ := p
    by_cases hk : k0 = k
    · subst hk; simp [alookup]
    · simp [alookup, hk, ih, Ne.symm hk]

theorem mem_of_alookup {l : List (κ × α)} {k : κ} {v : α}
    (h : alookup l k = some v) : (k, v) ∈ l := by
  induction l with
  | nil => simp [alookup] at h
  | cons p rest ih =>
    obtain ⟨k0, v0⟩ := p
    by_cases hk : k0 = k
    · subst hk
      simp [alookup] at h
      subst h
      exact List.mem_cons_self _ _
    · simp [alookup, hk] at h
      exact List.mem_cons_of_mem _ (ih h)

theorem alookup_of_mem_nodup {l : List (κ × α)} {k : κ} {v : α}
    (hnd : (l.map Prod.fst).Nodup) (h : (k, v) ∈ l) : alookup l k = some v := by
  induction l with
  | nil => simp at h
  | cons p rest ih =>
    obtain ⟨k0, v0⟩ := p
    simp only [List.map_cons, List.nodup_cons] at hnd
    rcases List.mem_cons.mp h with h' | h'
    · cases h'
      simp [alookup]
    · have hk : k0 ≠ k := by
        intro he
        subst he
        exact hnd.1 (List.mem_map.mpr ⟨(k0, v), h', rfl⟩)
      simp [alookup, hk, ih hnd.2 h']

theorem perm_aerase {l : List (κ × α)} {k : κ} {v : α}
    (h : alookup l k = some v) : l.Perm ((k, v) :: aerase l k) := by
  induction l with
  | nil => simp [alookup] at h
  | cons p rest ih =>
    obtain ⟨k0, v0⟩ := p
    by_cases hk : k0 = k
    · subst hk
      simp [alookup] at h
      subst h
      simp [aerase]
    · simp [alookup, hk] at h
      have hrw : aerase ((k0, v0) :: rest) k = (k0, v0) :: aerase rest k := by
        simp [aerase, hk]
      rw [hrw]
      exact ((ih h).cons _).trans (List.Perm.swap (k, v) (k0, v0) _)

theorem alookup_aerase_ne (l : List (κ × α)) {k k' : κ} (h : k' ≠ k) :
    alookup (aerase l k) k' = alookup l k' := by
  induction l with
  | nil => rfl
  | cons p rest ih =>
    obtain ⟨k0, v0⟩ := p
    by_cases hk : k0 = k
    · subst hk
      simp [aerase, alookup, h, Ne.symm h]
    · by_cases hk' : k0 = k'
      · subst hk'
        simp [aerase, alookup, hk, h]
      · simp [aerase, alookup, hk, hk', ih]

theorem mapSet_of_absent {l : List (κ × α)} {k : κ} (v : α)
    (h : alookup l k = none) : mapSet l k v = l ++ [(k, v)] := by
  induction l with
  | nil => rfl
  | cons p rest ih =>
    obtain ⟨k0, v0⟩ := p
    by_cases hk : k0 = k
    · subst hk; simp [alookup] at h
    · simp [alookup, hk] at h
      simp [mapSet, hk, ih h]

theorem alookup_append (l1 l2 : List (κ × α)) (k : κ) :
    alookup (l1 ++ l2) k =
      match alookup l1 k with
      | some v => some v
      | none => alookup l2 k := by
  induction l1 with
  | nil => simp [alookup]
  | cons p rest ih =>
    obtain ⟨k0, v0⟩ := p
    by_cases hk : k0 = k <;> simp [alookup, hk, ih]

end AList

theorem hd?_append (A B : List NodeId) (q : Option NodeId) :
    hd? (A ++ B) q = hd? A (hd? B q) := by
  cases A <;> rfl

theorem lst?_cons (p : Option NodeId) (i : NodeId) (A : List NodeId) :
    lst? p (i :: A) = lst? (some i) A := by
  cases A with
  | nil => rfl
  | cons a A' =>
    simp only [lst?, List.getLast?_cons_cons]
    cases h : (a :: A').getLast? with
    | none =>
      have : (a :: A').getLast?.isSome := by
        rw [List.getLast?_isSome]
        simp
      rw [h] at this
      simp at this
    | some x => rfl

theorem chainSeg_links_congr {ar ar' : List (NodeId × Node V)}
    {p q : Option NodeId} {L : List NodeId}
    (hsame : ∀ j ∈ L, Option.map links (alookup ar' j) = Option.map links (alookup ar j))
    (h : chainSeg ar p L q) : chainSeg ar' p L q := by
  induction L generalizing p with
  | nil => trivial
  | cons i rest ih =>
    obtain ⟨n, hn, hprev, hnext, htail⟩ := h
    have hsi := hsame i (List.mem_cons_self _ _)
    rw [hn] at hsi
    cases hlk : alookup ar' i with
    | none => rw [hlk] at hsi; simp at hsi
    | some n' =>
      rw [hlk] at hsi
      have hlinks : links n' = links n := by
        simpa using hsi
      have hprev' : n'.prev = p := by
        have := congrArg Prod.fst hlinks
        simp [links] at this
        rw [this, hprev]
      have hnext' : n'.next = hd? rest q := by
        have := congrArg Prod.snd hlinks
        simp [links] at this
        rw [this, hnext]
      exact ⟨n', hlk, hprev', hnext',
        ih (fun j hj => hsame j (List.mem_cons_of_mem _ hj)) htail⟩

theorem chainSeg_append_iff (ar : List (NodeId × Node V))
    (p q : Option NodeId) (A B : List NodeId) :
    chainSeg ar p (A ++ B) q ↔
      chainSeg ar p A (hd? B q) ∧ chainSeg ar (lst? p A) B q := by
  induction A generalizing p with
  | nil =>
    constructor
    · intro h; exact ⟨trivial, h⟩
    · intro h; exact h.2
  | cons i A' ih =>
    simp only [List.cons_append, chainSeg, hd?_append, lst?_cons]
    constructor
    · rintro ⟨n, hn, hprev, hnext, htail⟩
      obtain ⟨h1, h2⟩ := (ih (p := some i)).mp htail
      exact ⟨⟨n, hn, hprev, by rw [hnext]; cases A' <;> rfl, h1⟩, h2⟩
    · rintro ⟨⟨n, hn, hprev, hnext, htail⟩, h2⟩
      exact ⟨n, hn, hprev, by rw [hnext]; cases A' <;> rfl,
        (ih (p := some i)).mpr ⟨htail, h2⟩⟩

theorem chainSeg_lookup_isSome {ar : List (NodeId × Node V)}
    {p q : Option NodeId} {L : List NodeId}
    (h : chainSeg ar p L q) {j : NodeId} (hj : j ∈ L) :
    ∃ n, alookup ar j = some n := by
  induction L generalizing p with
  | nil => simp at hj
  | cons i rest ih =>
    obtain ⟨n, hn, _, _, htail⟩ := h
    rcases List.mem_cons.mp hj with rfl | hj'
    · exact ⟨n, hn⟩
    · exact ih htail hj'

theorem hd?_eq_head? (B : List NodeId) : hd? B none = B.head? := by
  cases B <;> rfl

theorem lst?_eq_getLast? (A : List NodeId) : lst? none A = A.getLast? := by
  cases h : A.getLast? <;> simp [lst?, h]

theorem head?_append_hd? (A B : List NodeId) : (A ++ B).head? = hd? A B.head? := by
  cases A <;> rfl

theorem hd?_of_ne_nil {A : List NodeId} (h : A ≠ []) (x y : Option NodeId) :
    hd? A x = hd? A y := by
  cases A with
  | nil => exact absurd rfl h
  | cons a A' => rfl

theorem payload_amodify (ar : List (NodeId × Node V)) (j : NodeId)
    (f : Node V → Node V) (hf : ∀ n, payload (f n) = payload n) (j' : NodeId) :
    Option.map payload (alookup (amodify ar j f) j')
      = Option.map payload (alookup ar j') := by
  rw [alookup_amodify]
  by_cases h : j' = j
  · subst h
    cases alookup ar j' <;> simp [hf]
  · simp [h]

theorem links_alookup_amodify_ne (ar : List (NodeId × Node V)) {j : NodeId}
    (f : Node V → Node V) {j' : NodeId} (h : j' ≠ j) :
    alookup (amodify ar j f) j' = alookup ar j' := by
  rw [alookup_amodify]
  simp [h]

theorem wf_mkLRUCache (c t : Int) : WF (mkLRUCache V c t) [] := by
  constructor <;> simp [mkLRUCache, chainSeg]

/-- Splitting a full chain at a member exposes the member's links: its
`prev` is the last identity before it, its `next` the first after it. -/
theorem chain_split_node {ar : List (NodeId × Node V)} {A B : List NodeId} {i : NodeId}
    (hch : chainSeg ar none (A ++ i :: B) none) :
    ∃ n, alookup ar i = some n ∧ n.prev = A.getLast? ∧ n.next = B.head? ∧
      chainSeg ar none A (some i) ∧ chainSeg ar (some i) B none := by
  obtain ⟨hA, hiB⟩ := (chainSeg_append_iff ar none none A (i :: B)).mp hch
  obtain ⟨n, hn, hprev, hnext, htail⟩ := hiB
  refine ⟨n, hn, ?_, ?_, hA, htail⟩
  · rw [hprev, lst?_eq_getLast?]
  · rw [hnext, hd?_eq_head?]

/-- Effect of `removeNode` on a well-formed list: the chain loses exactly
the removed identity, `head`/`tail` follow, node payloads and the set of
arena identities are untouched, and so is everything outside the list
structure. -/
theorem removeNode_rep (s : LRU V) (A B : List NodeId) (i : NodeId)
    (hch : chainSeg s.arena none (A ++ i :: B) none)
    (hhd : s.head = (A ++ i :: B).head?)
    (htl : s.tail = (A ++ i :: B).getLast?)
    (hnd : (A ++ i :: B).Nodup) :
    (removeNode s i).head = (A ++ B).head? ∧
    (removeNode s i).tail = (A ++ B).getLast? ∧
    chainSeg (removeNode s i).arena none (A ++ B) none ∧
    (∀ j, Option.map payload (alookup (removeNode s i).arena j)
        = Option.map payload (alookup s.arena j)) ∧
    (removeNode s i).arena.map Prod.fst = s.arena.map Prod.fst := by
  obtain ⟨n, hn, hprev, hnext, hA, hB⟩ := chain_split_node hch
  have hndA : A.Nodup := (List.nodup_append.mp hnd).1
  have hndiB : (i :: B).Nodup := (List.nodup_append.mp hnd).2.1
  have hdisj : A.Disjoint (i :: B) := (List.nodup_append.mp hnd).2.2
  have hndB : B.Nodup := (List.nodup_cons.mp hndiB).2
  have hiB : i ∉ B := (List.nodup_cons.mp hndiB).1
  rcases List.eq_nil_or_concat A with rfl | ⟨A2, a, hA2⟩
  · cases B with
    | nil =>
      simp only [List.getLast?_nil] at hprev
      simp only [List.head?_nil] at hnext
      have hrn : removeNode s i = { s with head := none, tail := none } := by
        simp [removeNode, hn, hprev, hnext]
      rw [hrn]
      refine ⟨rfl, rfl, trivial, fun j => rfl, rfl⟩
    | cons b B2 =>
      simp only [List.getLast?_nil] at hprev
      simp only [List.head?_cons] at hnext
      have hrn : removeNode s i =
          { s with head := some b,
                   arena := amodify s.arena b (fun m => { m with prev := none }) } := by
        simp [removeNode, hn, hprev, hnext]
      obtain ⟨nb, hnb, hnbp, hnbn, hB2⟩ := hB
      have hbB2 : b ∉ B2 := (List.nodup_cons.mp hndB).1
      rw [hrn]
      refine ⟨rfl, ?_, ?_, ?_, ?_⟩
      · rw [htl]
        simp [List.getLast?_cons_cons]
      · refine ⟨{ nb with prev := none }, ?_, rfl, hnbn, ?_⟩
        · rw [alookup_amodify]
          simp [hnb]
        · refine chainSeg_links_congr (fun j hj => ?_) hB2
          rw [links_alookup_amodify_ne]
          intro he
          exact hbB2 (he ▸ hj)
      · intro j
        exact payload_amodify s.arena b (fun m => { m with prev := none }) (fun m => rfl) j
      · exact map_fst_amodify _ _ _
  · rw [List.concat_eq_append] at hA2
    subst hA2
    have haA2 : a ∉ A2 := by
      have := (List.nodup_append.mp hndA).2.2
      intro hmem
      exact this hmem (List.mem_singleton.mpr rfl)
    have hprev' : n.prev = some a := by rw [hprev, List.getLast?_concat]
    have hane : (A2 ++ [a]) ≠ [] := by simp
    have haiB : a ∉ i :: B := fun h =>
      hdisj (List.mem_append.mpr (Or.inr (List.mem_singleton.mpr rfl))) h
    have hai : a ≠ i := fun h => haiB (h ▸ List.mem_cons_self _ _)
    obtain ⟨hA2seg, haseg⟩ :=
      (chainSeg_append_iff s.arena none (some i) A2 [a]).mp hA
    obtain ⟨na, hna, hnap, hnan, _⟩ := haseg
    cases B with
    | nil =>
      simp only [List.head?_nil] at hnext
      have hrn : removeNode s i =
          { s with arena := amodify s.arena a (fun m => { m with next := none }),
                   tail := some a } := by
        simp [removeNode, hn, hprev', hnext]
      rw [hrn]
      refine ⟨?_, ?_, ?_, ?_, ?_⟩
      · rw [hhd]
        rw [List.head?_append_of_ne_nil _ hane, List.append_nil]
      · rw [List.append_nil, List.getLast?_concat]
      · rw [List.append_nil]
        refine (chainSeg_append_iff _ none none A2 [a]).mpr ⟨?_, ?_⟩
        · refine chainSeg_links_congr (fun j hj => ?_) hA2seg
          rw [links_alookup_amodify_ne]
          intro he
          exact haA2 (he ▸ hj)
        · refine ⟨{ na with next := none }, ?_, hnap, rfl, trivial⟩
          rw [alookup_amodify]
          simp [hna]
      · intro j
        exact payload_amodify s.arena a (fun m => { m with next := none }) (fun m => rfl) j
      · exact map_fst_amodify _ _ _
    | cons b B2 =>
      simp only [List.head?_cons] at hnext
      have hrn : removeNode s i = { s with arena := amodify (amodify s.arena a (fun m => { m with next := some b })) b (fun m => { m with prev := some a }) } := by
        simp [removeNode, hn, hprev', hnext]
      obtain ⟨nb, hnb, hnbp, hnbn, hB2⟩ := hB
      have hbB2 : b ∉ B2 := (List.nodup_cons.mp hndB).1
      have hab : a ≠ b := fun h => haiB (h ▸ List.mem_cons_of_mem _ (List.mem_cons_self _ _))
      have haB2 : a ∉ B2 := fun h => haiB (List.mem_cons_of_mem _ (List.mem_cons_of_mem _ h))
      rw [hrn]
      refine ⟨?_, ?_, ?_, ?_, ?_⟩
      · rw [hhd]
        rw [List.head?_append_of_ne_nil _ hane, List.head?_append_of_ne_nil _ hane]
      · rw [htl]
        rw [List.getLast?_append_cons, List.getLast?_append_cons,
          List.getLast?_cons_cons]
      · refine (chainSeg_append_iff _ none none (A2 ++ [a]) (b :: B2)).mpr ⟨?_, ?_⟩
        · refine (chainSeg_append_iff _ none _ A2 [a]).mpr ⟨?_, ?_⟩
          · refine chainSeg_links_congr (fun j hj => ?_) hA2seg
            rw [links_alookup_amodify_ne, links_alookup_amodify_ne]
            · intro he; exact haA2 (he ▸ hj)
            · intro he
              exact hdisj (List.mem_append.mpr (Or.inl (he ▸ hj)))
                (List.mem_cons_of_mem _ (List.mem_cons_self _ _))
          · refine ⟨{ na with next := some b }, ?_, hnap, rfl, trivial⟩
            rw [links_alookup_amodify_ne _ _ hab, alookup_amodify]
            simp [hna]
        · refine ⟨{ nb with prev := some a }, ?_,
            by simp [lst?_eq_getLast?, List.getLast?_concat], hnbn, ?_⟩
          · rw [alookup_amodify]
            simp [links_alookup_amodify_ne _ _ (Ne.symm hab), hnb]
          · refine chainSeg_links_congr (fun j hj => ?_) hB2
            rw [links_alookup_amodify_ne, links_alookup_amodify_ne]
            · intro he; exact haB2 (he ▸ hj)
            · intro he; exact hbB2 (he ▸ hj)
      · intro j
        rw [payload_amodify (amodify s.arena a (fun m => { m with next := some b })) b (fun m => { m with prev := some a }) (fun m => rfl) j]
        exact payload_amodify s.arena a (fun m => { m with next := some b }) (fun m => rfl) j
      · rw [map_fst_amodify, map_fst_amodify]

/-- Effect of `addToHead` on a well-formed list that does not contain the
inserted identity (which must already sit in the arena): the chain gains
the identity at the front, `head`/`tail` follow, payloads and arena
identities are untouched. -/
theorem addToHead_rep (s : LRU V) (L : List NodeId) (i : NodeId) (n0 : Node V)
    (hch : chainSeg s.arena none L none)
    (hhd : s.head = L.head?) (htl : s.tail = L.getLast?)
    (hnd : L.Nodup) (hiL : i ∉ L) (hn0 : alookup s.arena i = some n0) :
    (addToHead s i).head = some i ∧
    (addToHead s i).tail = (i :: L).getLast? ∧
    chainSeg (addToHead s i).arena none (i :: L) none ∧
    (∀ j, Option.map payload (alookup (addToHead s i).arena j)
        = Option.map payload (alookup s.arena j)) ∧
    (addToHead s i).arena.map Prod.fst = s.arena.map Prod.fst := by
  cases L with
  | nil =>
    simp only [List.head?_nil] at hhd
    simp only [List.getLast?_nil] at htl
    have hrn : addToHead s i = { s with arena := amodify (amodify s.arena i (fun n => { n with prev := none })) i (fun n => { n with next := none }), head := some i, tail := some i } := by
      simp [addToHead, hhd, htl]
    rw [hrn]
    refine ⟨rfl, rfl, ?_, ?_, ?_⟩
    · refine ⟨{ n0 with prev := none, next := none }, ?_, rfl, rfl, trivial⟩
      rw [alookup_amodify]
      simp [alookup_amodify, hn0]
    · intro j
      rw [payload_amodify (amodify s.arena i (fun n => { n with prev := none })) i (fun n => { n with next := none }) (fun m => rfl) j]
      exact payload_amodify s.arena i (fun n => { n with prev := none }) (fun m => rfl) j
    · rw [map_fst_amodify, map_fst_amodify]
  | cons h L2 =>
    simp only [List.head?_cons] at hhd
    have hxtl : ∃ x, (h :: L2).getLast? = some x := by
      cases he : (h :: L2).getLast? with
      | none =>
        have : (h :: L2).getLast?.isSome := by
          rw [List.getLast?_isSome]; simp
        rw [he] at this; simp at this
      | some x => exact ⟨x, rfl⟩
    obtain ⟨x, hx⟩ := hxtl
    rw [hx] at htl
    have hih : i ≠ h := fun he => hiL (he ▸ List.mem_cons_self _ _)
    have hiL2 : i ∉ L2 := fun he => hiL (List.mem_cons_of_mem _ he)
    have hhL2 : h ∉ L2 := (List.nodup_cons.mp hnd).1
    have hrn : addToHead s i = { s with arena := amodify (amodify (amodify s.arena i (fun n => { n with prev := none })) i (fun n => { n with next := some h })) h (fun n => { n with prev := some i }), head := some i, tail := some x } := by
      simp [addToHead, hhd, htl]
    obtain ⟨nh, hnh, hnhp, hnhn, hL2⟩ := hch
    rw [hrn]
    refine ⟨rfl, ?_, ?_, ?_, ?_⟩
    · rw [List.getLast?_cons_cons, hx]
    · refine ⟨{ n0 with prev := none, next := some h }, ?_, rfl, rfl, ?_⟩
      · rw [links_alookup_amodify_ne _ _ hih, alookup_amodify]
        simp [alookup_amodify, hn0]
      · refine ⟨{ nh with prev := some i }, ?_, rfl, hnhn, ?_⟩
        · rw [alookup_amodify]
          simp [links_alookup_amodify_ne _ _ (Ne.symm hih), hnh]
        · refine chainSeg_links_congr (fun j hj => ?_) hL2
          rw [links_alookup_amodify_ne, links_alookup_amodify_ne,
            links_alookup_amodify_ne]
          · intro he; exact hiL2 (he ▸ hj)
          · intro he; exact hiL2 (he ▸ hj)
          · intro he; exact hhL2 (he ▸ hj)
    · intro j
      rw [payload_amodify (amodify (amodify s.arena i (fun n => { n with prev := none })) i (fun n => { n with next := some h })) h (fun n => { n with prev := some i }) (fun m => rfl) j]
      rw [payload_amodify (amodify s.arena i (fun n => { n with prev := none })) i (fun n => { n with next := some h }) (fun m => rfl) j]
      exact payload_amodify s.arena i (fun n => { n with prev := none }) (fun m => rfl) j
    · rw [map_fst_amodify, map_fst_amodify, map_fst_amodify]

theorem frameEq_refl (s : LRU V) : frameEq s s :=
  ⟨rfl, rfl, rfl, rfl, rfl, rfl, rfl, rfl⟩

theorem frameEq_trans {s1 s2 s3 : LRU V} (h1 : frameEq s1 s2) (h2 : frameEq s2 s3) :
    frameEq s1 s3 := by
  obtain ⟨a1, b1, c1, d1, e1, f1, g1, h1'⟩ := h1
  obtain ⟨a2, b2, c2, d2, e2, f2, g2, h2'⟩ := h2
  exact ⟨a2.trans a1, b2.trans b1, c2.trans c1, d2.trans d1, e2.trans e1,
    f2.trans f1, g2.trans g1, h2'.trans h1'⟩

theorem frameEq_removeNode (s : LRU V) (i : NodeId) : frameEq s (removeNode s i) := by
  unfold frameEq removeNode
  cases alookup s.arena i with
  | none => simp
  | some node =>
    cases hp : node.prev <;> cases hq : node.next <;> simp [hp, hq]

theorem frameEq_addToHead (s : LRU V) (i : NodeId) : frameEq s (addToHead s i) := by
  unfold frameEq addToHead
  cases hh : s.head <;> cases ht : s.tail <;> simp [hh, ht]

theorem frameEq_moveToHead (s : LRU V) (i : NodeId) : frameEq s (moveToHead s i) :=
  frameEq_trans (frameEq_removeNode s i) (frameEq_addToHead (removeNode s i) i)

/-- Transfer a node lookup along payload-preservation. -/
theorem payload_lookup_transfer {ar ar' : List (NodeId × Node V)} {j : NodeId} {n : Node V}
    (hpay : Option.map payload (alookup ar' j) = Option.map payload (alookup ar j))
    (hn : alookup ar j = some n) :
    ∃ n', alookup ar' j = some n' ∧ n'.key = n.key ∧ n'.value = n.value ∧
      n'.timestamp = n.timestamp := by
  rw [hn] at hpay
  cases hl : alookup ar' j with
  | none => rw [hl] at hpay; simp at hpay
  | some n' =>
    rw [hl] at hpay
    simp only [Option.map_some'] at hpay
    have := Option.some.inj hpay
    refine ⟨n', rfl, ?_, ?_, ?_⟩
    · exact congrArg Prod.fst this
    · exact congrArg (fun p => p.2.1) this
    · exact congrArg (fun p => p.2.2) this

/-- Effect of `moveToHead` on a member of a well-formed chain rotates it to the
front; everything else is untouched. -/
theorem moveToHead_rep (s : LRU V) (A B : List NodeId) (i : NodeId)
    (hch : chainSeg s.arena none (A ++ i :: B) none)
    (hhd : s.head = (A ++ i :: B).head?)
    (htl : s.tail = (A ++ i :: B).getLast?)
    (hnd : (A ++ i :: B).Nodup) :
    (moveToHead s i).head = some i ∧
    (moveToHead s i).tail = (i :: (A ++ B)).getLast? ∧
    chainSeg (moveToHead s i).arena none (i :: (A ++ B)) none ∧
    (∀ j, Option.map payload (alookup (moveToHead s i).arena j)
        = Option.map payload (alookup s.arena j)) ∧
    (moveToHead s i).arena.map Prod.fst = s.arena.map Prod.fst := by
  obtain ⟨n, hn, _, _, _, _⟩ := chain_split_node hch
  obtain ⟨hh1, ht1, hc1, hp1, hf1⟩ := removeNode_rep s A B i hch hhd htl hnd
  have hndAB : (A ++ B).Nodup :=
    hnd.sublist (((List.Sublist.refl B).cons i).append_left A)
  have hiAB : i ∉ A ++ B := by
    intro hmem
    rcases List.mem_append.mp hmem with h' | h'
    · exact (List.nodup_append.mp hnd).2.2 h' (List.mem_cons_self _ _)
    · exact (List.nodup_cons.mp (List.nodup_append.mp hnd).2.1).1 h'
  obtain ⟨n', hn', _, _, _⟩ := payload_lookup_transfer (hp1 i) hn
  obtain ⟨hh2, ht2, hc2, hp2, hf2⟩ :=
    addToHead_rep (removeNode s i) (A ++ B) i n' hc1 hh1 ht1 hndAB hiAB hn'
  refine ⟨hh2, ht2, hc2, ?_, hf2.trans hf1⟩
  intro j
  exact (hp2 j).trans (hp1 j)

theorem del_absent (s : LRU V) (k : Key) (hk : alookup s.cache k = none) :
    del s k = (false, s) := by
  simp [del, hk]

/-- Effect of `delete` on a present key: it removes exactly that entry from index
and list, preserves every payload and every field outside the structure,
reports `true`, and keeps the state well-formed. -/
theorem del_wf {s : LRU V} {L : List NodeId} {k : Key} {i : NodeId}
    (h : WF s L) (hk : alookup s.cache k = some i) :
    ∃ A B, L = A ++ i :: B ∧
      (del s k).1 = true ∧
      WF (del s k).2 (A ++ B) ∧
      (del s k).2.cache = aerase s.cache k ∧
      (∀ j, Option.map payload (alookup (del s k).2.arena j)
          = Option.map payload (alookup s.arena j)) ∧
      (del s k).2.capacity = s.capacity ∧ (del s k).2.ttl = s.ttl ∧
      (del s k).2.hits = s.hits ∧ (del s k).2.misses = s.misses ∧
      (del s k).2.responseTimes = s.responseTimes ∧
      (del s k).2.nextId = s.nextId ∧
      (del s k).2.statsSize = s.statsSize - 1 := by
  have hmem : (k, i) ∈ s.cache := mem_of_alookup hk
  have hiL : i ∈ L := h.ids_perm.subset (List.mem_map.mpr ⟨(k, i), hmem, rfl⟩)
  obtain ⟨A, B, hL⟩ := List.append_of_mem hiL
  subst hL
  obtain ⟨hcap, httl, hcache, hhits, hmiss, hsize, hresp, hnid⟩ := frameEq_removeNode s i
  obtain ⟨hh1, ht1, hc1, hp1, hf1⟩ :=
    removeNode_rep s A B i h.chain h.head_eq h.tail_eq h.nodup
  have hdel : del s k = (true, { removeNode s i with
      cache := aerase (removeNode s i).cache k,
      statsSize := (removeNode s i).statsSize - 1 }) := by
    simp [del, hk]
  have hperm : s.cache.Perm ((k, i) :: aerase s.cache k) := perm_aerase hk
  have hpermsnd : (s.cache.map Prod.snd).Perm (i :: (aerase s.cache k).map Prod.snd) := by
    simpa using hperm.map Prod.snd
  have hpermfst : (s.cache.map Prod.fst).Perm (k :: (aerase s.cache k).map Prod.fst) := by
    simpa using hperm.map Prod.fst
  have hids : ((aerase s.cache k).map Prod.snd).Perm (A ++ B) := by
    have h1 : (i :: (aerase s.cache k).map Prod.snd).Perm (i :: (A ++ B)) :=
      (hpermsnd.symm.trans h.ids_perm).trans List.perm_middle
    exact h1.cons_inv
  have hkeys_nd : ((aerase s.cache k).map Prod.fst).Nodup :=
    (List.nodup_cons.mp (hpermfst.nodup_iff.mp h.keys_nodup)).2
  have hndAB : (A ++ B).Nodup :=
    h.nodup.sublist (((List.Sublist.refl B).cons i).append_left A)
  have hlen : s.cache.length = (aerase s.cache k).length + 1 := by
    have := hperm.length_eq
    simpa using this
  refine ⟨A, B, rfl, ?_, ?_, ?_, ?_, ?_, ?_, ?_, ?_, ?_, ?_, ?_⟩
  · rw [hdel]
  · rw [hdel]
    constructor
    · exact hc1
    · exact hh1
    · exact ht1
    · exact hndAB
    · rw [hcache]; exact hids
    · rw [hcache]; exact hkeys_nd
    · intro p hp
      rw [hcache] at hp
      have hpin : p ∈ s.cache := hperm.symm.subset (List.mem_cons_of_mem _ hp)
      obtain ⟨n, hn, hkey⟩ := h.key_coh p hpin
      obtain ⟨n', hn', hk', _, _⟩ := payload_lookup_transfer (hp1 p.2) hn
      exact ⟨n', hn', hk'.trans hkey⟩
    · rw [hsize, hcache, h.size_eq, hlen]
      push_cast
      ring
    · intro j hj
      rw [hf1] at hj
      rw [hnid]
      exact h.fresh j hj
  · rw [hdel, hcache]
  · intro j
    rw [hdel]
    exact hp1 j
  · rw [hdel]; exact hcap
  · rw [hdel]; exact httl
  · rw [hdel]; exact hhits
  · rw [hdel]; exact hmiss
  · rw [hdel]; exact hresp
  · rw [hdel]; exact hnid
  · rw [hdel]
    simp only []
    rw [hsize]

/-- Invariant: `delete` always preserves well-formedness (present or absent key). -/
theorem del_wf_exists {s : LRU V} {L : List NodeId} (k : Key) (h : WF s L) :
    ∃ L', WF (del s k).2 L' := by
  cases hk : alookup s.cache k with
  | none => rw [del_absent s k hk]; exact ⟨L, h⟩
  | some i =>
    obtain ⟨A, B, _, _, hwf, _⟩ := del_wf h hk
    exact ⟨A ++ B, hwf⟩

/-- Index-lookup characterization of `delete`: the given key becomes
absent, every other key is untouched. -/
theorem del_cache_lookup {s : LRU V} {L : List NodeId} (h : WF s L) (k k' : Key) :
    alookup (del s k).2.cache k' = if k' = k then none else alookup s.cache k' := by
  cases hk : alookup s.cache k with
  | none =>
    rw [del_absent s k hk]
    by_cases h' : k' = k
    · subst h'; simp [hk]
    · simp [h']
  | some i =>
    obtain ⟨A, B, _, _, _, hcache, _⟩ := del_wf h hk
    rw [hcache]
    by_cases h' : k' = k
    · subst h'
      have hperm : s.cache.Perm ((k', i) :: aerase s.cache k') := perm_aerase hk
      have hpermfst : (s.cache.map Prod.fst).Perm (k' :: (aerase s.cache k').map Prod.fst) := by
        simpa using hperm.map Prod.fst
      have : k' ∉ (aerase s.cache k').map Prod.fst :=
        (List.nodup_cons.mp (hpermfst.nodup_iff.mp h.keys_nodup)).1
      simp [(alookup_eq_none_iff _ _).mpr this]
    · simp [h', alookup_aerase_ne _ h']

/-- Projection-preserving arena update leaves the projected view of every
lookup unchanged. -/
theorem proj_alookup_amodify {β : Type} (g : Node V → β) (ar : List (NodeId × Node V))
    (j : NodeId) (f : Node V → Node V) (hf : ∀ n, g (f n) = g n) (j' : NodeId) :
    Option.map g (alookup (amodify ar j f) j') = Option.map g (alookup ar j') := by
  rw [alookup_amodify]
  by_cases h : j' = j
  · subst h
    cases alookup ar j' <;> simp [hf]
  · simp [h]

/-- Well-formedness only depends on the structural fields. -/
theorem wf_congr {s s' : LRU V} {L : List NodeId} (h : WF s L)
    (harena : s'.arena = s.arena) (hhead : s'.head = s.head) (htail : s'.tail = s.tail)
    (hcache : s'.cache = s.cache) (hsize : s'.statsSize = s.statsSize)
    (hnid : s'.nextId = s.nextId) : WF s' L := by
  constructor
  · rw [harena]; exact h.chain
  · rw [hhead]; exact h.head_eq
  · rw [htail]; exact h.tail_eq
  · exact h.nodup
  · rw [hcache]; exact h.ids_perm
  · rw [hcache]; exact h.keys_nodup
  · rw [hcache, harena]; exact h.key_coh
  · rw [hsize, hcache]; exact h.size_eq
  · rw [harena, hnid]; exact h.fresh

/-- A chain identity is an arena identity. -/
theorem mem_arena_of_alookup {ar : List (NodeId × Node V)} {j : NodeId} {n : Node V}
    (h : alookup ar j = some n) : j ∈ ar.map Prod.fst := by
  by_contra hmem
  rw [← alookup_eq_none_iff] at hmem
  rw [h] at hmem
  simp at hmem

/-- Effect of `set` on a present key: value/timestamp update in place plus
promotion; the index and all counters are untouched. -/
theorem set_present_wf {s : LRU V} {L : List NodeId} {k : Key} {i : NodeId} (t : Int) (v : V)
    (h : WF s L) (hk : alookup s.cache k = some i) :
    ∃ A B, L = A ++ i :: B ∧ WF (set s t k v) (i :: (A ++ B)) ∧
      (set s t k v).cache = s.cache ∧
      (set s t k v).capacity = s.capacity ∧ (set s t k v).ttl = s.ttl ∧
      (set s t k v).hits = s.hits ∧ (set s t k v).misses = s.misses ∧
      (set s t k v).responseTimes = s.responseTimes ∧
      (set s t k v).statsSize = s.statsSize ∧ (set s t k v).nextId = s.nextId := by
  have hmem : (k, i) ∈ s.cache := mem_of_alookup hk
  have hiL : i ∈ L := h.ids_perm.subset (List.mem_map.mpr ⟨(k, i), hmem, rfl⟩)
  obtain ⟨A, B, hL⟩ := List.append_of_mem hiL
  subst hL
  have hset : set s t k v = moveToHead { s with arena := amodify s.arena i (fun n => { n with value := v, timestamp := t }) } i := by
    simp [set, hk]
  have hwf1 : WF { s with arena := amodify s.arena i (fun n => { n with value := v, timestamp := t }) } (A ++ i :: B) := by
    constructor
    · refine chainSeg_links_congr (fun j hj => ?_) h.chain
      exact proj_alookup_amodify links s.arena i (fun n => { n with value := v, timestamp := t }) (fun n => rfl) j
    · exact h.head_eq
    · exact h.tail_eq
    · exact h.nodup
    · exact h.ids_perm
    · exact h.keys_nodup
    · intro p hp
      obtain ⟨n, hn, hkey⟩ := h.key_coh p hp
      have := proj_alookup_amodify Node.key s.arena i
        (fun n => { n with value := v, timestamp := t }) (fun n => rfl) p.2
      rw [hn] at this
      cases hl : alookup (amodify s.arena i (fun n => { n with value := v, timestamp := t })) p.2 with
      | none => rw [hl] at this; simp at this
      | some n' =>
        rw [hl] at this
        simp only [Option.map_some'] at this
        exact ⟨n', rfl, (Option.some.inj this).trans hkey⟩
    · exact h.size_eq
    · intro j hj
      rw [map_fst_amodify] at hj
      exact h.fresh j hj
  obtain ⟨hcap, httl, hcache, hhits, hmiss, hsize, hresp, hnid⟩ :=
    frameEq_moveToHead { s with arena := amodify s.arena i (fun n => { n with value := v, timestamp := t }) } i
  obtain ⟨hh2, ht2, hc2, hp2, hf2⟩ :=
    moveToHead_rep _ A B i hwf1.chain hwf1.head_eq hwf1.tail_eq hwf1.nodup
  have hndAB : (A ++ B).Nodup :=
    h.nodup.sublist (((List.Sublist.refl B).cons i).append_left A)
  have hiAB : i ∉ A ++ B := by
    intro hmem'
    rcases List.mem_append.mp hmem' with h' | h'
    · exact (List.nodup_append.mp h.nodup).2.2 h' (List.mem_cons_self _ _)
    · exact (List.nodup_cons.mp (List.nodup_append.mp h.nodup).2.1).1 h'
  refine ⟨A, B, rfl, ?_, ?_, ?_, ?_, ?_, ?_, ?_, ?_, ?_⟩
  · rw [hset]
    constructor
    · exact hc2
    · rw [hh2]; rfl
    · exact ht2
    · exact List.nodup_cons.mpr ⟨hiAB, hndAB⟩
    · rw [hcache]
      exact h.ids_perm.trans (List.perm_middle.trans (List.Perm.refl _))
    · rw [hcache]; exact h.keys_nodup
    · intro p hp
      rw [hcache] at hp
      obtain ⟨n, hn, hkey⟩ := hwf1.key_coh p hp
      obtain ⟨n', hn', hk', _, _⟩ := payload_lookup_transfer (hp2 p.2) hn
      exact ⟨n', hn', hk'.trans hkey⟩
    · rw [hsize, hcache]; exact h.size_eq
    · intro j hj
      rw [hf2, map_fst_amodify] at hj
      rw [hnid]
      exact h.fresh j hj
  · rw [hset, hcache]
  · rw [hset]; exact hcap
  · rw [hset]; exact httl
  · rw [hset]; exact hhits
  · rw [hset]; exact hmiss
  · rw [hset]; exact hresp
  · rw [hset]; exact hsize
  · rw [hset]; exact hnid

/-- On a well-formed state, `removeTail` coincides with `delete` applied
to the key of the tail node. -/
theorem removeTail_eq_del {s : LRU V} {L : List NodeId} (h : WF s L) {t : NodeId}
    (ht : L.getLast? = some t) :
    ∃ tn, alookup s.arena t = some tn ∧ alookup s.cache tn.key = some t ∧
      removeTail s = (del s tn.key).2 := by
  have htL : t ∈ L := List.mem_of_mem_getLast? ht
  obtain ⟨tn, htn⟩ := chainSeg_lookup_isSome h.chain htL
  have htsnd : t ∈ s.cache.map Prod.snd := h.ids_perm.symm.subset htL
  obtain ⟨p, hp, hpt⟩ := List.mem_map.mp htsnd
  obtain ⟨n, hn, hkey⟩ := h.key_coh p hp
  rw [hpt] at hn
  rw [htn] at hn
  obtain rfl := Option.some.inj hn
  have hpeq : p = (tn.key, t) := by
    obtain ⟨p1, p2⟩ := p
    simp only at hpt hkey
    rw [hpt, hkey]
  have hcachetn : alookup s.cache tn.key = some t :=
    alookup_of_mem_nodup h.keys_nodup (hpeq ▸ hp)
  have htail : s.tail = some t := by rw [h.tail_eq, ht]
  refine ⟨tn, htn, hcachetn, ?_⟩
  have h1 : removeTail s = { removeNode s t with
      cache := aerase (removeNode s t).cache tn.key,
      statsSize := (removeNode s t).statsSize - 1 } := by
    simp [removeTail, htail, htn]
  have h2 : (del s tn.key).2 = { removeNode s t with
      cache := aerase (removeNode s t).cache tn.key,
      statsSize := (removeNode s t).statsSize - 1 } := by
    simp [del, hcachetn]
  rw [h1, h2]

theorem set_absent_eq {s : LRU V} {k : Key} (t : Int) (v : V)
    (hk : alookup s.cache k = none) :
    set s t k v = if ((setS3 s t k v).cache.length : Int) > (setS3 s t k v).capacity
      then removeTail (setS3 s t k v) else setS3 s t k v := by
  simp [set, hk, setS1, setS3]

/-- The pre-capacity-check state of an absent-key `set` is well-formed
with the fresh identity at the head, and its fields are as expected. -/
theorem setS3_wf {s : LRU V} {L : List NodeId} {k : Key} (t : Int) (v : V)
    (h : WF s L) (hk : alookup s.cache k = none) :
    WF (setS3 s t k v) (s.nextId :: L) ∧
    (setS3 s t k v).cache = s.cache ++ [(k, s.nextId)] ∧
    (setS3 s t k v).capacity = s.capacity ∧ (setS3 s t k v).ttl = s.ttl ∧
    (setS3 s t k v).hits = s.hits ∧ (setS3 s t k v).misses = s.misses ∧
    (setS3 s t k v).responseTimes = s.responseTimes ∧
    (setS3 s t k v).statsSize = s.statsSize + 1 ∧
    (setS3 s t k v).nextId = s.nextId + 1 ∧
    (∀ j, j ≠ s.nextId → Option.map payload (alookup (setS3 s t k v).arena j)
        = Option.map payload (alookup s.arena j)) ∧
    (∃ nn, alookup (setS3 s t k v).arena s.nextId = some nn ∧
      nn.key = k ∧ nn.value = v ∧ nn.timestamp = t) := by
  have hiL : s.nextId ∉ L := by
    intro hmem
    obtain ⟨n, hn⟩ := chainSeg_lookup_isSome h.chain hmem
    exact absurd (h.fresh s.nextId (mem_arena_of_alookup hn)) (lt_irrefl _)
  have hcache1 : (setS1 s t k v).cache = s.cache ++ [(k, s.nextId)] := by
    simp [setS1, mapSet_of_absent _ hk]
  have hchain1 : chainSeg (setS1 s t k v).arena none L none := by
    refine chainSeg_links_congr (fun j hj => ?_) h.chain
    have hji : ¬ s.nextId = j := fun he => hiL (he ▸ hj)
    simp [setS1, alookup, hji]
  have hlook1 : alookup (setS1 s t k v).arena s.nextId =
      some { key := k, value := v, timestamp := t, prev := none, next := none } := by
    simp [setS1, alookup]
  obtain ⟨hh2, ht2, hc2, hp2, hf2⟩ := addToHead_rep (setS1 s t k v) L s.nextId _
    hchain1 h.head_eq h.tail_eq h.nodup hiL hlook1
  obtain ⟨hcap2, httl2, hcache2, hhits2, hmiss2, hsize2, hresp2, hnid2⟩ :=
    frameEq_addToHead (setS1 s t k v) s.nextId
  have hf1 : (setS1 s t k v).arena.map Prod.fst = s.nextId :: s.arena.map Prod.fst := by
    simp [setS1]
  have hkn : k ∉ s.cache.map Prod.fst := (alookup_eq_none_iff _ _).mp hk
  refine ⟨?_, ?_, ?_, ?_, ?_, ?_, ?_, ?_, ?_, ?_, ?_⟩
  · constructor
    · exact hc2
    · exact hh2
    · exact ht2
    · exact List.nodup_cons.mpr ⟨hiL, h.nodup⟩
    · show ((addToHead (setS1 s t k v) s.nextId).cache.map Prod.snd).Perm (s.nextId :: L)
      rw [hcache2, hcache1, List.map_append]
      exact (List.perm_append_singleton _ _).trans (h.ids_perm.cons _)
    · show ((addToHead (setS1 s t k v) s.nextId).cache.map Prod.fst).Nodup
      rw [hcache2, hcache1, List.map_append]
      refine List.nodup_append.mpr ⟨h.keys_nodup, List.nodup_singleton _, ?_⟩
      intro a ha hmem
      simp only [List.map_cons, List.map_nil, List.mem_singleton] at hmem
      exact hkn (hmem ▸ ha)
    · intro p hp
      show ∃ n, alookup (addToHead (setS1 s t k v) s.nextId).arena p.2 = some n ∧ n.key = p.1
      have hp0 : p ∈ (addToHead (setS1 s t k v) s.nextId).cache := hp
      rw [hcache2, hcache1] at hp0
      rcases List.mem_append.mp hp0 with hp' | hp'
      · obtain ⟨n, hn, hkey⟩ := h.key_coh p hp'
        have hne : ¬ s.nextId = p.2 := by
          intro he
          exact absurd (he ▸ h.fresh p.2 (mem_arena_of_alookup hn)) (lt_irrefl _)
        have hn1 : alookup (setS1 s t k v).arena p.2 = some n := by
          simp [setS1, alookup, hne]
          exact hn
        obtain ⟨n', hn', hk', _, _⟩ := payload_lookup_transfer (hp2 p.2) hn1
        exact ⟨n', hn', hk'.trans hkey⟩
      · rw [List.mem_singleton] at hp'
        subst hp'
        obtain ⟨n', hn', hk', _, _⟩ := payload_lookup_transfer (hp2 s.nextId) hlook1
        exact ⟨n', hn', hk'⟩
    · show (setS3 s t k v).statsSize = ((setS3 s t k v).cache.length : Int)
      have : (setS3 s t k v).cache = s.cache ++ [(k, s.nextId)] := by
        show (addToHead (setS1 s t k v) s.nextId).cache = _
        rw [hcache2, hcache1]
      rw [this]
      show (addToHead (setS1 s t k v) s.nextId).statsSize + 1 = _
      rw [hsize2]
      show s.statsSize + 1 = _
      rw [h.size_eq]
      simp
    · intro j hj
      show j < (setS3 s t k v).nextId
      have : (setS3 s t k v).nextId = s.nextId + 1 := by
        show (addToHead (setS1 s t k v) s.nextId).nextId = _
        rw [hnid2]
        rfl
      rw [this]
      have hj' : j ∈ (addToHead (setS1 s t k v) s.nextId).arena.map Prod.fst := hj
      rw [hf2, hf1] at hj'
      rcases List.mem_cons.mp hj' with rfl | hj''
      · exact Nat.lt_succ_self _
      · exact Nat.lt_succ_of_lt (h.fresh j hj'')
  · show (addToHead (setS1 s t k v) s.nextId).cache = _
    rw [hcache2, hcache1]
  · show (addToHead (setS1 s t k v) s.nextId).capacity = _
    rw [hcap2]; rfl
  · show (addToHead (setS1 s t k v) s.nextId).ttl = _
    rw [httl2]; rfl
  · show (addToHead (setS1 s t k v) s.nextId).hits = _
    rw [hhits2]; rfl
  · show (addToHead (setS1 s t k v) s.nextId).misses = _
    rw [hmiss2]; rfl
  · show (addToHead (setS1 s t k v) s.nextId).responseTimes = _
    rw [hresp2]; rfl
  · show (addToHead (setS1 s t k v) s.nextId).statsSize + 1 = _
    rw [hsize2]; rfl
  · show (addToHead (setS1 s t k v) s.nextId).nextId = _
    rw [hnid2]; rfl
  · intro j hj
    have h1 := hp2 j
    have h2 : alookup (setS1 s t k v).arena j = alookup s.arena j := by
      have : ¬ s.nextId = j := fun he => hj he.symm
      simp [setS1, alookup, this]
    rw [h2] at h1
    exact h1
  · obtain ⟨n', hn', hk', hv', ht'⟩ := payload_lookup_transfer (hp2 s.nextId) hlook1
    exact ⟨n', hn', hk', hv', ht'⟩

/-- Effect of `set` on an absent key: the entry is created; if the index would
exceed capacity, exactly the tail entry is evicted. -/
theorem set_absent_wf {s : LRU V} {L : List NodeId} {k : Key} (t : Int) (v : V)
    (h : WF s L) (hk : alookup s.cache k = none) :
    ∃ L', WF (set s t k v) L' ∧
      (set s t k v).capacity = s.capacity ∧ (set s t k v).ttl = s.ttl ∧
      (set s t k v).hits = s.hits ∧ (set s t k v).misses = s.misses ∧
      (set s t k v).responseTimes = s.responseTimes ∧
      ((¬ ((s.cache.length : Int) + 1 > s.capacity)) ∧
          (set s t k v).cache.length = s.cache.length + 1 ∧
          (set s t k v).statsSize = s.statsSize + 1 ∧
          (∀ k', alookup (set s t k v).cache k' =
            if k' = k then some s.nextId else alookup s.cache k') ∨
        ((s.cache.length : Int) + 1 > s.capacity) ∧
          (set s t k v).cache.length = s.cache.length ∧
          (set s t k v).statsSize = s.statsSize ∧
          ∃ tkey,
            ((L ≠ [] ∧ ∃ ti n0, s.tail = some ti ∧ alookup s.arena ti = some n0 ∧
                n0.key = tkey) ∨ (L = [] ∧ tkey = k)) ∧
            (∀ k', alookup (set s t k v).cache k' =
              if k' = tkey then none else if k' = k then some s.nextId
              else alookup s.cache k')) := by
  obtain ⟨hwf3, hc3, hcap3, httl3, hhits3, hmiss3, hresp3, hss3, hnid3, hpay3, nn, hnn, hnnk, hnnv, hnnt⟩ :=
    setS3_wf t v h hk
  have hlen3 : (setS3 s t k v).cache.length = s.cache.length + 1 := by
    rw [hc3]; simp
  have hlook3 : ∀ k', alookup (setS3 s t k v).cache k' =
      if k' = k then some s.nextId else alookup s.cache k' := by
    intro k'
    rw [hc3, alookup_append]
    by_cases he : k' = k
    · subst he
      rw [hk]
      simp [alookup]
    · cases hl : alookup s.cache k' with
      | some w => simp [he]
      | none => simp [he, alookup, Ne.symm he]
  have hcond : (((setS3 s t k v).cache.length : Int) > (setS3 s t k v).capacity)
      ↔ ((s.cache.length : Int) + 1 > s.capacity) := by
    rw [hlen3, hcap3]
    push_cast
    exact Iff.rfl
  by_cases hc : ((s.cache.length : Int) + 1 > s.capacity)
  · have hsetev : set s t k v = removeTail (setS3 s t k v) := by
      rw [set_absent_eq t v hk, if_pos (hcond.mpr hc)]
    have hgl : ∃ tid, (s.nextId :: L).getLast? = some tid := by
      cases he : (s.nextId :: L).getLast? with
      | none =>
        have : (s.nextId :: L).getLast?.isSome := by
          rw [List.getLast?_isSome]; simp
        rw [he] at this; simp at this
      | some x => exact ⟨x, rfl⟩
    obtain ⟨tid, htid⟩ := hgl
    obtain ⟨tn, htn, hctn, hrt⟩ := removeTail_eq_del hwf3 htid
    obtain ⟨A, B, hLsplit, _, hwfF, hcacheF, hpayF, hcapF, httlF, hhitsF,
      hmissF, hrespF, hnidF, hssF⟩ := del_wf hwf3 hctn
    have hfin : set s t k v = (del (setS3 s t k v) tn.key).2 := by
      rw [hsetev, hrt]
    have hlenF : (del (setS3 s t k v) tn.key).2.cache.length = s.cache.length := by
      have hperm := perm_aerase hctn
      have := hperm.length_eq
      rw [hcacheF]
      simp only [List.length_cons] at this
      omega
    refine ⟨A ++ B, ?_, ?_, ?_, ?_, ?_, ?_, Or.inr ⟨hc, ?_, ?_, tn.key, ?_, ?_⟩⟩
    · rw [hfin]; exact hwfF
    · rw [hfin, hcapF, hcap3]
    · rw [hfin, httlF, httl3]
    · rw [hfin, hhitsF, hhits3]
    · rw [hfin, hmissF, hmiss3]
    · rw [hfin, hrespF, hresp3]
    · rw [hfin]; exact hlenF
    · rw [hfin, hssF, hss3]; ring
    · cases L with
      | nil =>
        refine Or.inr ⟨rfl, ?_⟩
        have : tid = s.nextId := by
          simp at htid
          exact htid.symm
        subst this
        rw [htn] at hnn
        obtain rfl := Option.some.inj hnn
        exact hnnk
      | cons l0 L1 =>
        refine Or.inl ⟨by simp, ?_⟩
        have htid' : (l0 :: L1).getLast? = some tid := by
          rw [← htid, List.getLast?_cons_cons]
        have htidL : tid ∈ l0 :: L1 := List.mem_of_mem_getLast? htid'
        have hne : tid ≠ s.nextId := by
          intro he
          obtain ⟨n, hn⟩ := chainSeg_lookup_isSome h.chain htidL
          rw [he] at hn
          exact absurd (h.fresh s.nextId (mem_arena_of_alookup hn)) (lt_irrefl _)
        obtain ⟨n0, hn0, hn0k, _, _⟩ :=
          payload_lookup_transfer (hpay3 tid hne).symm htn
        exact ⟨tid, n0, by rw [h.tail_eq, htid'], hn0, hn0k⟩
    · intro k'
      rw [hfin, del_cache_lookup hwf3 tn.key k']
      by_cases he : k' = tn.key
      · simp [he]
      · rw [if_neg he, if_neg he, hlook3]
  · have hsetne : set s t k v = setS3 s t k v := by
      rw [set_absent_eq t v hk, if_neg]
      rw [hcond]
      exact hc
    refine ⟨s.nextId :: L, ?_, ?_, ?_, ?_, ?_, ?_,
      Or.inl ⟨hc, ?_, ?_, ?_⟩⟩
    · rw [hsetne]; exact hwf3
    · rw [hsetne, hcap3]
    · rw [hsetne, httl3]
    · rw [hsetne, hhits3]
    · rw [hsetne, hmiss3]
    · rw [hsetne, hresp3]
    · rw [hsetne, hlen3]
    · rw [hsetne, hss3]
    · intro k'
      rw [hsetne]
      exact hlook3 k'

/-- Effect of `moveToHead` on a member of a well-formed state keeps it well-formed,
rotating the member to the front of the recency order. -/
theorem moveToHead_wf {s : LRU V} {L : List NodeId} {i : NodeId}
    (h : WF s L) (hiL : i ∈ L) :
    ∃ A B, L = A ++ i :: B ∧ WF (moveToHead s i) (i :: (A ++ B)) ∧
      (∀ j, Option.map payload (alookup (moveToHead s i).arena j)
          = Option.map payload (alookup s.arena j)) ∧
      frameEq s (moveToHead s i) := by
  obtain ⟨A, B, hL⟩ := List.append_of_mem hiL
  subst hL
  obtain ⟨hh2, ht2, hc2, hp2, hf2⟩ :=
    moveToHead_rep s A B i h.chain h.head_eq h.tail_eq h.nodup
  obtain ⟨hcap, httl, hcache, hhits, hmiss, hsize, hresp, hnid⟩ := frameEq_moveToHead s i
  have hndAB : (A ++ B).Nodup :=
    h.nodup.sublist (((List.Sublist.refl B).cons i).append_left A)
  have hiAB : i ∉ A ++ B := by
    intro hmem'
    rcases List.mem_append.mp hmem' with h' | h'
    · exact (List.nodup_append.mp h.nodup).2.2 h' (List.mem_cons_self _ _)
    · exact (List.nodup_cons.mp (List.nodup_append.mp h.nodup).2.1).1 h'
  refine ⟨A, B, rfl, ?_, hp2, frameEq_moveToHead s i⟩
  constructor
  · exact hc2
  · rw [hh2]; rfl
  · exact ht2
  · exact List.nodup_cons.mpr ⟨hiAB, hndAB⟩
  · rw [hcache]
    exact h.ids_perm.trans List.perm_middle
  · rw [hcache]; exact h.keys_nodup
  · intro p hp
    rw [hcache] at hp
    obtain ⟨n, hn, hkey⟩ := h.key_coh p hp
    obtain ⟨n', hn', hk', _, _⟩ := payload_lookup_transfer (hp2 p.2) hn
    exact ⟨n', hn', hk'.trans hkey⟩
  · rw [hsize, hcache]; exact h.size_eq
  · intro j hj
    rw [hf2] at hj
    rw [hnid]
    exact h.fresh j hj

theorem get_absent_eq (s : LRU V) (t0 t1 t2 : Int) (k : Key)
    (hk : alookup s.cache k = none) :
    get s t0 t1 t2 k =
      (none, recordResponseTime { s with misses := s.misses + 1 } (t2 - t0)) := by
  simp [get, hk]

/-- A miss on an absent key preserves well-formedness (only the miss
counter and the latency window move). -/
theorem get_absent_wf {s : LRU V} {L : List NodeId} (t0 t1 t2 : Int) {k : Key}
    (h : WF s L) (hk : alookup s.cache k = none) :
    WF (get s t0 t1 t2 k).2 L := by
  rw [get_absent_eq s t0 t1 t2 k hk]
  exact wf_congr h rfl rfl rfl rfl rfl rfl

/-- Effect of `get` on an expired entry: removed from index and list, counted as a
miss, one latency sample recorded, `null` returned. -/
theorem get_expired_wf {s : LRU V} {L : List NodeId} {k : Key} {i : NodeId} {n : Node V}
    (t0 t1 t2 : Int) (h : WF s L)
    (hk : alookup s.cache k = some i) (hn : alookup s.arena i = some n)
    (hexp : t1 - n.timestamp > s.ttl) :
    (get s t0 t1 t2 k).1 = none ∧
    ∃ A B, L = A ++ i :: B ∧
      WF (get s t0 t1 t2 k).2 (A ++ B) ∧
      (get s t0 t1 t2 k).2.cache = aerase s.cache k ∧
      (get s t0 t1 t2 k).2.misses = s.misses + 1 ∧
      (get s t0 t1 t2 k).2.hits = s.hits ∧
      (get s t0 t1 t2 k).2.responseTimes =
        (if (s.responseTimes ++ [t2 - t0]).length > 100
          then (s.responseTimes ++ [t2 - t0]).drop 1 else s.responseTimes ++ [t2 - t0]) ∧
      (get s t0 t1 t2 k).2.capacity = s.capacity ∧
      (get s t0 t1 t2 k).2.ttl = s.ttl ∧
      (get s t0 t1 t2 k).2.statsSize = s.statsSize - 1 := by
  obtain ⟨A, B, hLs, _, hwfD, hcD, hpD, hcapD, httlD, hhitsD, hmissD, hrespD, hnidD, hssD⟩ :=
    del_wf h hk
  have hg : get s t0 t1 t2 k =
      (none, recordResponseTime { (del s k).2 with misses := (del s k).2.misses + 1 }
        (t2 - t0)) := by
    simp [get, hk, hn, hexp]
  rw [hg]
  refine ⟨rfl, A, B, hLs, ?_, ?_, ?_, ?_, ?_, ?_, ?_, ?_⟩
  · exact wf_congr hwfD rfl rfl rfl rfl rfl rfl
  · exact hcD
  · show (del s k).2.misses + 1 = s.misses + 1
    rw [hmissD]
  · show (del s k).2.hits = s.hits
    exact hhitsD
  · show (if ((del s k).2.responseTimes ++ [t2 - t0]).length > 100
        then ((del s k).2.responseTimes ++ [t2 - t0]).drop 1
        else (del s k).2.responseTimes ++ [t2 - t0]) = _
    rw [hrespD]
  · exact hcapD
  · exact httlD
  · exact hssD

/-- Effect of `get` on a live entry: the value is returned, the entry is promoted,
the hit counter moves, one latency sample is recorded; the index, the
payloads (key, value, timestamp) of every node, and `stats.size` are all
untouched. -/
theorem get_hit_wf {s : LRU V} {L : List NodeId} {k : Key} {i : NodeId} {n : Node V}
    (t0 t1 t2 : Int) (h : WF s L)
    (hk : alookup s.cache k = some i) (hn : alookup s.arena i = some n)
    (hlive : ¬ (t1 - n.timestamp > s.ttl)) :
    (get s t0 t1 t2 k).1 = some n.value ∧
    ∃ A B, L = A ++ i :: B ∧
      WF (get s t0 t1 t2 k).2 (i :: (A ++ B)) ∧
      (get s t0 t1 t2 k).2.cache = s.cache ∧
      (get s t0 t1 t2 k).2.hits = s.hits + 1 ∧
      (get s t0 t1 t2 k).2.misses = s.misses ∧
      (get s t0 t1 t2 k).2.responseTimes =
        (if (s.responseTimes ++ [t2 - t0]).length > 100
          then (s.responseTimes ++ [t2 - t0]).drop 1 else s.responseTimes ++ [t2 - t0]) ∧
      (∀ j, Option.map payload (alookup (get s t0 t1 t2 k).2.arena j)
          = Option.map payload (alookup s.arena j)) ∧
      (get s t0 t1 t2 k).2.capacity = s.capacity ∧
      (get s t0 t1 t2 k).2.ttl = s.ttl ∧
      (get s t0 t1 t2 k).2.statsSize = s.statsSize := by
  have hiL : i ∈ L := h.ids_perm.subset (List.mem_map.mpr ⟨(k, i), mem_of_alookup hk, rfl⟩)
  obtain ⟨A, B, hLs, hwfM, hpM, hcapM, httlM, hcacheM, hhitsM, hmissM, hsizeM, hrespM, hnidM⟩ :=
    moveToHead_wf h hiL
  have hg : get s t0 t1 t2 k =
      (some n.value, recordResponseTime { moveToHead s i with hits := (moveToHead s i).hits + 1 }
        (t2 - t0)) := by
    simp [get, hk, hn, hlive]
  rw [hg]
  refine ⟨rfl, A, B, hLs, ?_, ?_, ?_, ?_, ?_, hpM, ?_, ?_, ?_⟩
  · exact wf_congr hwfM rfl rfl rfl rfl rfl rfl
  · show (moveToHead s i).cache = s.cache
    exact hcacheM
  · show (moveToHead s i).hits + 1 = s.hits + 1
    rw [hhitsM]
  · show (moveToHead s i).misses = s.misses
    exact hmissM
  · show (if ((moveToHead s i).responseTimes ++ [t2 - t0]).length > 100
        then ((moveToHead s i).responseTimes ++ [t2 - t0]).drop 1
        else (moveToHead s i).responseTimes ++ [t2 - t0]) = _
    rw [hrespM]
  · exact hcapM
  · exact httlM
  · show (moveToHead s i).statsSize = s.statsSize
    exact hsizeM

/-- Effect of `clear()`: it empties the structure; well-formedness becomes trivial. -/
theorem clear_wf {s : LRU V} {L : List NodeId} (h : WF s L) : WF (clear s) [] := by
  constructor
  · trivial
  · rfl
  · rfl
  · exact List.nodup_nil
  · simp [clear]
  · simp [clear]
  · intro p hp
    simp [clear] at hp
  · simp [clear]
  · intro j hj
    exact h.fresh j hj

theorem del_frame (s : LRU V) (k : Key) :
    (del s k).2.capacity = s.capacity ∧ (del s k).2.ttl = s.ttl ∧
    (del s k).2.hits = s.hits ∧ (del s k).2.misses = s.misses ∧
    (del s k).2.responseTimes = s.responseTimes ∧ (del s k).2.nextId = s.nextId := by
  cases hk : alookup s.cache k with
  | none => rw [del_absent s k hk]; exact ⟨rfl, rfl, rfl, rfl, rfl, rfl⟩
  | some i =>
    obtain ⟨hcap, httl, _, hhits, hmiss, _, hresp, hnid⟩ := frameEq_removeNode s i
    have hd : (del s k).2 = { removeNode s i with
        cache := aerase (removeNode s i).cache k,
        statsSize := (removeNode s i).statsSize - 1 } := by
      simp [del, hk]
    rw [hd]
    exact ⟨hcap, httl, hhits, hmiss, hresp, hnid⟩

theorem foldDel_wf (ks : List Key) : ∀ {s : LRU V} {L : List NodeId}, WF s L →
    ∃ L', WF (ks.foldl (fun st k => (del st k).2) s) L' := by
  induction ks with
  | nil => intro s L h; exact ⟨L, h⟩
  | cons k0 ks ih =>
    intro s L h
    simp only [List.foldl_cons]
    obtain ⟨L1, h1⟩ := del_wf_exists k0 h
    exact ih h1

theorem foldDel_lookup (ks : List Key) : ∀ {s : LRU V} {L : List NodeId}, WF s L → ∀ k,
    alookup (ks.foldl (fun st k' => (del st k').2) s).cache k
      = if k ∈ ks then none else alookup s.cache k := by
  induction ks with
  | nil => intro s L h k; simp
  | cons k0 ks ih =>
    intro s L h k
    simp only [List.foldl_cons]
    obtain ⟨L1, h1⟩ := del_wf_exists k0 h
    rw [ih h1 k]
    by_cases hmem : k ∈ ks
    · simp [hmem]
    · rw [if_neg hmem, del_cache_lookup h k0 k]
      by_cases he : k = k0
      · simp [he]
      · have : k ∉ k0 :: ks := by
          intro hc
          rcases List.mem_cons.mp hc with h' | h'
          · exact he h'
          · exact hmem h'
        simp [he, this]

theorem foldDel_frame (ks : List Key) : ∀ (s : LRU V),
    (ks.foldl (fun st k => (del st k).2) s).capacity = s.capacity ∧
    (ks.foldl (fun st k => (del st k).2) s).ttl = s.ttl ∧
    (ks.foldl (fun st k => (del st k).2) s).hits = s.hits ∧
    (ks.foldl (fun st k => (del st k).2) s).misses = s.misses ∧
    (ks.foldl (fun st k => (del st k).2) s).responseTimes = s.responseTimes := by
  induction ks with
  | nil => intro s; exact ⟨rfl, rfl, rfl, rfl, rfl⟩
  | cons k0 ks ih =>
    intro s
    simp only [List.foldl_cons]
    obtain ⟨hcap, httl, hhits, hmiss, hresp, _⟩ := del_frame s k0
    obtain ⟨hcap2, httl2, hhits2, hmiss2, hresp2⟩ := ih (del s k0).2
    exact ⟨hcap2.trans hcap, httl2.trans httl, hhits2.trans hhits,
      hmiss2.trans hmiss, hresp2.trans hresp⟩

theorem cleanupExpired_eq_foldDel (s : LRU V) (now : Int) :
    cleanupExpired s now = (expiredKeys s now).foldl (fun st k => (del st k).2) s := rfl

theorem cleanup_wf {s : LRU V} {L : List NodeId} (h : WF s L) (now : Int) :
    ∃ L', WF (cleanupExpired s now) L' := by
  rw [cleanupExpired_eq_foldDel]
  exact foldDel_wf _ h

/-- A present key is collected by the sweep exactly when its node's age
strictly exceeds the TTL. -/
theorem mem_expiredKeys_iff {s : LRU V} {L : List NodeId} (h : WF s L) (now : Int)
    {k : Key} {i : NodeId} {n : Node V}
    (hk : alookup s.cache k = some i) (hn : alookup s.arena i = some n) :
    k ∈ expiredKeys s now ↔ now - n.timestamp > s.ttl := by
  constructor
  · intro hmem
    obtain ⟨p, hpf, hpk⟩ := List.mem_map.mp hmem
    have hpc : p ∈ s.cache := (List.mem_filter.mp hpf).1
    have hpred := (List.mem_filter.mp hpf).2
    have hlp : alookup s.cache p.1 = some p.2 := by
      refine alookup_of_mem_nodup h.keys_nodup ?_
      obtain ⟨p1, p2⟩ := p
      exact hpc
    rw [hpk, hk] at hlp
    obtain hpi := Option.some.inj hlp
    rw [← hpi, hn] at hpred
    simpa using hpred
  · intro hgt
    refine List.mem_map.mpr ⟨(k, i), List.mem_filter.mpr ⟨mem_of_alookup hk, ?_⟩, rfl⟩
    simp only [hn]
    simpa using hgt

/-- Index-lookup characterization of the background sweep on a present
key: removed exactly when strictly older than the TTL. -/
theorem cleanupExpired_lookup {s : LRU V} {L : List NodeId} (h : WF s L) (now : Int)
    {k : Key} {i : NodeId} {n : Node V}
    (hk : alookup s.cache k = some i) (hn : alookup s.arena i = some n) :
    alookup (cleanupExpired s now).cache k =
      if now - n.timestamp > s.ttl then none else some i := by
  rw [cleanupExpired_eq_foldDel, foldDel_lookup _ h k]
  by_cases hgt : now - n.timestamp > s.ttl
  · rw [if_pos ((mem_expiredKeys_iff h now hk hn).mpr hgt), if_pos hgt]
  · rw [if_neg (fun hc => hgt ((mem_expiredKeys_iff h now hk hn).mp hc)), if_neg hgt, hk]

/-- Every public operation preserves well-formedness. -/
theorem runOp_wf {s : LRU V} {L : List NodeId} (h : WF s L) (op : Op V) :
    ∃ L', WF (runOp s op) L' := by
  cases op with
  | opGet t0 t1 t2 k =>
    show ∃ L', WF (get s t0 t1 t2 k).2 L'
    cases hk : alookup s.cache k with
    | none => exact ⟨L, get_absent_wf t0 t1 t2 h hk⟩
    | some i =>
      cases hn : alookup s.arena i with
      | none =>
        have : (get s t0 t1 t2 k).2 = s := by
          simp [get, hk, hn]
        rw [this]
        exact ⟨L, h⟩
      | some n =>
        by_cases hexp : t1 - n.timestamp > s.ttl
        · obtain ⟨_, A, B, _, hwf, _⟩ := get_expired_wf t0 t1 t2 h hk hn hexp
          exact ⟨A ++ B, hwf⟩
        · obtain ⟨_, A, B, _, hwf, _⟩ := get_hit_wf t0 t1 t2 h hk hn hexp
          exact ⟨i :: (A ++ B), hwf⟩
  | opSet t k v =>
    show ∃ L', WF (set s t k v) L'
    cases hk : alookup s.cache k with
    | none =>
      obtain ⟨L', hwf, _⟩ := set_absent_wf t v h hk
      exact ⟨L', hwf⟩
    | some i =>
      obtain ⟨A, B, _, hwf, _⟩ := set_present_wf t v h hk
      exact ⟨i :: (A ++ B), hwf⟩
  | opDel k => exact del_wf_exists k h
  | opClear => exact ⟨[], clear_wf h⟩
  | opCleanup now => exact cleanup_wf h now

/-- A whole trace of public operations preserves well-formedness. -/
theorem runOps_wf (ops : List (Op V)) : ∀ {s : LRU V} {L : List NodeId}, WF s L →
    ∃ L', WF (runOps s ops) L' := by
  induction ops with
  | nil => intro s L h; exact ⟨L, h⟩
  | cons op ops ih =>
    intro s L h
    show ∃ L', WF ((op :: ops).foldl runOp s) L'
    simp only [List.foldl_cons]
    obtain ⟨L1, h1⟩ := runOp_wf h op
    exact ih h1

theorem removeTail_frame (s : LRU V) :
    (removeTail s).capacity = s.capacity ∧ (removeTail s).ttl = s.ttl ∧
    (removeTail s).hits = s.hits ∧ (removeTail s).misses = s.misses ∧
    (removeTail s).responseTimes = s.responseTimes ∧ (removeTail s).nextId = s.nextId := by
  cases ht : s.tail with
  | none => simp [removeTail, ht]
  | some t =>
    cases hn : alookup s.arena t with
    | none => simp [removeTail, ht, hn]
    | some node =>
      obtain ⟨hcap, httl, _, hhits, hmiss, _, hresp, hnid⟩ := frameEq_removeNode s t
      have hrt : removeTail s = { removeNode s t with
          cache := aerase (removeNode s t).cache node.key,
          statsSize := (removeNode s t).statsSize - 1 } := by
        simp [removeTail, ht, hn]
      rw [hrt]
      exact ⟨hcap, httl, hhits, hmiss, hresp, hnid⟩

/-- Frame: `set` never records a latency sample: the rolling window is untouched
on both the update and the insert path. -/
theorem set_responseTimes (s : LRU V) (t : Int) (k : Key) (v : V) :
    (set s t k v).responseTimes = s.responseTimes := by
  cases hk : alookup s.cache k with
  | some i =>
    have hset : set s t k v = moveToHead { s with arena := amodify s.arena i (fun n => { n with value := v, timestamp := t }) } i := by
      simp [set, hk]
    rw [hset]
    obtain ⟨_, _, _, _, _, _, hresp, _⟩ :=
      frameEq_moveToHead { s with arena := amodify s.arena i (fun n => { n with value := v, timestamp := t }) } i
    exact hresp
  | none =>
    rw [set_absent_eq t v hk]
    have h3 : (setS3 s t k v).responseTimes = s.responseTimes := by
      show (addToHead (setS1 s t k v) s.nextId).responseTimes = s.responseTimes
      obtain ⟨_, _, _, _, _, _, hresp, _⟩ := frameEq_addToHead (setS1 s t k v) s.nextId
      rw [hresp]
      rfl
    by_cases hcond : ((setS3 s t k v).cache.length : Int) > (setS3 s t k v).capacity
    · rw [if_pos hcond]
      obtain ⟨_, _, _, _, hresp, _⟩ := removeTail_frame (setS3 s t k v)
      rw [hresp, h3]
    · rw [if_neg hcond, h3]

theorem set_hits_misses (s : LRU V) (t : Int) (k : Key) (v : V) :
    (set s t k v).hits = s.hits ∧ (set s t k v).misses = s.misses := by
  cases hk : alookup s.cache k with
  | some i =>
    have hset : set s t k v = moveToHead { s with arena := amodify s.arena i (fun n => { n with value := v, timestamp := t }) } i := by
      simp [set, hk]
    rw [hset]
    obtain ⟨_, _, _, hhits, hmiss, _, _, _⟩ :=
      frameEq_moveToHead { s with arena := amodify s.arena i (fun n => { n with value := v, timestamp := t }) } i
    exact ⟨hhits, hmiss⟩
  | none =>
    rw [set_absent_eq t v hk]
    have h3h : (setS3 s t k v).hits = s.hits := by
      show (addToHead (setS1 s t k v) s.nextId).hits = s.hits
      obtain ⟨_, _, _, hhits, _, _, _, _⟩ := frameEq_addToHead (setS1 s t k v) s.nextId
      rw [hhits]; rfl
    have h3m : (setS3 s t k v).misses = s.misses := by
      show (addToHead (setS1 s t k v) s.nextId).misses = s.misses
      obtain ⟨_, _, _, _, hmiss, _, _, _⟩ := frameEq_addToHead (setS1 s t k v) s.nextId
      rw [hmiss]; rfl
    by_cases hcond : ((setS3 s t k v).cache.length : Int) > (setS3 s t k v).capacity
    · rw [if_pos hcond]
      obtain ⟨_, _, hhits, hmiss, _, _⟩ := removeTail_frame (setS3 s t k v)
      rw [hhits, hmiss, h3h, h3m]
      exact ⟨rfl, rfl⟩
    · rw [if_neg hcond, h3h, h3m]
      exact ⟨rfl, rfl⟩

/-- One `set` keeps the index within the capacity bound. -/
theorem set_preserves_bound {s : LRU V} {L : List NodeId}
    (h : WF s L) (hlen : (s.cache.length : Int) ≤ s.capacity) (t : Int) (k : Key) (v : V) :
    ∃ L', WF (set s t k v) L' ∧ (set s t k v).capacity = s.capacity ∧
      ((set s t k v).cache.length : Int) ≤ s.capacity := by
  cases hk : alookup s.cache k with
  | some i =>
    obtain ⟨A, B, _, hwf, hcache, hcap, _⟩ := set_present_wf t v h hk
    refine ⟨i :: (A ++ B), hwf, hcap, ?_⟩
    rw [hcache]
    exact hlen
  | none =>
    obtain ⟨L', hwf, hcap, _, _, _, _, hbranch⟩ := set_absent_wf t v h hk
    refine ⟨L', hwf, hcap, ?_⟩
    rcases hbranch with ⟨hcond, hlen', _, _⟩ | ⟨hcond, hlen', _, _⟩
    · rw [hlen']
      push_cast
      omega
    · rw [hlen']
      exact hlen

/-- Any sequence of `set` calls from a fresh cache keeps the index within
capacity (when the configured capacity is nonnegative). -/
theorem foldSets_wf (c ttlS : Int) (hc : 0 ≤ c) (sets : List (Int × Key × V)) :
    ∃ L, WF (sets.foldl (fun st p => set st p.1 p.2.1 p.2.2) (mkLRUCache V c ttlS)) L ∧
      (sets.foldl (fun st p => set st p.1 p.2.1 p.2.2) (mkLRUCache V c ttlS)).capacity = c ∧
      ((sets.foldl (fun st p => set st p.1 p.2.1 p.2.2) (mkLRUCache V c ttlS)).cache.length : Int) ≤ c := by
  suffices hgen : ∀ (sets : List (Int × Key × V)) (s : LRU V) (L : List NodeId), WF s L →
      s.capacity = c → ((s.cache.length : Int) ≤ c) →
      ∃ L', WF (sets.foldl (fun st p => set st p.1 p.2.1 p.2.2) s) L' ∧
        (sets.foldl (fun st p => set st p.1 p.2.1 p.2.2) s).capacity = c ∧
        ((sets.foldl (fun st p => set st p.1 p.2.1 p.2.2) s).cache.length : Int) ≤ c by
    exact hgen sets (mkLRUCache V c ttlS) [] (wf_mkLRUCache c ttlS) rfl (by simp [mkLRUCache]; exact hc)
  intro sets
  induction sets with
  | nil => intro s L h hcap hlen; exact ⟨L, h, hcap, hlen⟩
  | cons p sets ih =>
    intro s L h hcap hlen
    simp only [List.foldl_cons]
    rw [← hcap] at hlen
    obtain ⟨L1, hwf1, hcap1, hlen1⟩ := set_preserves_bound h hlen p.1 p.2.1 p.2.2
    exact ih _ L1 hwf1 (hcap1.trans hcap) (hcap ▸ hlen1)

theorem recordResponseTime_bound {s : LRU V} (x : Int)
    (h : s.responseTimes.length ≤ 100) :
    (recordResponseTime s x).responseTimes.length ≤ 100 := by
  show (if (s.responseTimes ++ [x]).length > 100
      then (s.responseTimes ++ [x]).drop 1 else s.responseTimes ++ [x]).length ≤ 100
  by_cases hlen : (s.responseTimes ++ [x]).length > 100
  · rw [if_pos hlen]
    rw [List.length_drop]
    simp only [List.length_append, List.length_cons, List.length_nil] at *
    omega
  · rw [if_neg hlen]
    omega

/-- Every public operation keeps the latency window at ≤ 100 samples. -/
theorem runOp_resp_bound {s : LRU V} (op : Op V)
    (h : s.responseTimes.length ≤ 100) :
    (runOp s op).responseTimes.length ≤ 100 := by
  cases op with
  | opGet t0 t1 t2 k =>
    show ((get s t0 t1 t2 k).2).responseTimes.length ≤ 100
    cases hk : alookup s.cache k with
    | none =>
      rw [get_absent_eq s t0 t1 t2 k hk]
      exact recordResponseTime_bound _ h
    | some i =>
      cases hn : alookup s.arena i with
      | none =>
        have hg : (get s t0 t1 t2 k).2 = s := by simp [get, hk, hn]
        rw [hg]
        exact h
      | some n =>
        by_cases hexp : t1 - n.timestamp > s.ttl
        · have hg : (get s t0 t1 t2 k).2 =
              recordResponseTime { (del s k).2 with misses := (del s k).2.misses + 1 }
                (t2 - t0) := by
            simp [get, hk, hn, hexp]
          rw [hg]
          apply recordResponseTime_bound
          show ((del s k).2).responseTimes.length ≤ 100
          obtain ⟨_, _, _, _, hresp, _⟩ := del_frame s k
          rw [hresp]
          exact h
        · have hg : (get s t0 t1 t2 k).2 =
              recordResponseTime { moveToHead s i with hits := (moveToHead s i).hits + 1 }
                (t2 - t0) := by
            simp [get, hk, hn, hexp]
          rw [hg]
          apply recordResponseTime_bound
          show ((moveToHead s i)).responseTimes.length ≤ 100
          obtain ⟨_, _, _, _, _, _, hresp, _⟩ := frameEq_moveToHead s i
          rw [hresp]
          exact h
  | opSet t k v =>
    show (set s t k v).responseTimes.length ≤ 100
    rw [set_responseTimes]
    exact h
  | opDel k =>
    show ((del s k).2).responseTimes.length ≤ 100
    obtain ⟨_, _, _, _, hresp, _⟩ := del_frame s k
    rw [hresp]
    exact h
  | opClear =>
    show (clear s).responseTimes.length ≤ 100
    simp [clear]
  | opCleanup now =>
    show (cleanupExpired s now).responseTimes.length ≤ 100
    rw [cleanupExpired_eq_foldDel]
    obtain ⟨_, _, _, _, hresp⟩ := foldDel_frame (expiredKeys s now) s
    rw [hresp]
    exact h

theorem runOps_resp_bound (ops : List (Op V)) : ∀ (s : LRU V),
    s.responseTimes.length ≤ 100 → (runOps s ops).responseTimes.length ≤ 100 := by
  induction ops with
  | nil => intro s h; exact h
  | cons op ops ih =>
    intro s h
    show ((op :: ops).foldl runOp s).responseTimes.length ≤ 100
    simp only [List.foldl_cons]
    exact ih _ (runOp_resp_bound op h)

theorem cache_ne_nil_of_wf {s : LRU V} {L : List NodeId} (h : WF s L)
    (hne : s.cache ≠ []) : L ≠ [] := by
  intro hL
  subst hL
  have := h.ids_perm.length_eq
  simp only [List.length_map, List.length_nil] at this
  exact hne (List.length_eq_zero.mp this)

/-! ## The claims -/

/-- C1: for every capacity `c ≥ 1` and every sequence of `set` calls on a
cache constructed with capacity `c`, the number of live entries
(`getStats().size` and the number of keys in the index) never exceeds `c`
after any operation completes; and on a `set` of a distinct key that would
push the live count to `c + 1`, exactly one entry is evicted, namely the
current tail of the recency list (the least-recently-used key). -/
theorem claim_c1_capacity_invariant (V : Type) (c ttlS : Int) (hc : 1 ≤ c)
    (sets : List (Int × Key × V)) (s : LRU V)
    (hs : s = sets.foldl (fun st p => set st p.1 p.2.1 p.2.2) (mkLRUCache V c ttlS)) :
    (getStats s).size ≤ c ∧ ((s.cache.length : Int) ≤ c) ∧
    ∀ t k v, alookup s.cache k = none → ((s.cache.length : Int) = c) →
      ∃ ti tn, s.tail = some ti ∧ alookup s.arena ti = some tn ∧
        (set s t k v).cache.length = s.cache.length ∧
        (∀ k', alookup (set s t k v).cache k' =
          if k' = tn.key then none
          else if k' = k then some s.nextId
          else alookup s.cache k') := by
  obtain ⟨L, h, hcap, hlen⟩ := foldSets_wf c ttlS (by omega) sets
  rw [← hs] at h hcap hlen
  refine ⟨?_, hlen, ?_⟩
  · show s.statsSize ≤ c
    rw [h.size_eq]
    exact hlen
  · intro t k v hk hfull
    obtain ⟨L', hwf, hcap', httl', hhits', hmiss', hresp', hbranch⟩ := set_absent_wf t v h hk
    rcases hbranch with ⟨hcond, _⟩ | ⟨_, hlen', _, tkey, horigin, hchar⟩
    · exfalso
      rw [hfull, hcap] at hcond
      omega
    · have hLne : L ≠ [] := by
        refine cache_ne_nil_of_wf h ?_
        intro hnil
        rw [hnil] at hfull
        simp at hfull
        omega
      rcases horigin with ⟨_, ti, n0, htail, hn0, hn0k⟩ | ⟨hLnil, _⟩
      · refine ⟨ti, n0, htail, hn0, by rw [hlen'], ?_⟩
        intro k'
        rw [hchar k', hn0k]
      · exact absurd hLnil hLne

/-- C2: after every public operation (get, set, delete, clear — and also
the background sweep) on a cache constructed with capacity ≥ 1, the
key-to-node index and the doubly linked recency list contain exactly the
same set of nodes (a bijection, packaged in `WF`: the index's node
identities are a permutation of the chain reachable from `head`, every
indexed entry's node carries its key, and the list is duplicate-free),
the list's head is the most-recently-used live entry (the front of the
recency order), and the list's tail is the entry that a capacity eviction
(`removeTail`) would remove next. -/
theorem claim_c2_index_list_bijection (V : Type) (c ttlS : Int) (_hc : 1 ≤ c)
    (ops : List (Op V)) (s : LRU V) (hs : s = runOps (mkLRUCache V c ttlS) ops) :
    ∃ L, WF s L ∧
      (s.cache ≠ [] →
        ∃ ti tn, s.tail = some ti ∧ alookup s.arena ti = some tn ∧
          ∀ k', alookup (removeTail s).cache k' =
            if k' = tn.key then none else alookup s.cache k') := by
  obtain ⟨L, h⟩ := runOps_wf ops (wf_mkLRUCache c ttlS)
  rw [← hs] at h
  refine ⟨L, h, ?_⟩
  intro hne
  have hLne : L ≠ [] := cache_ne_nil_of_wf h hne
  have hgl : ∃ ti, L.getLast? = some ti := by
    cases he : L.getLast? with
    | none =>
      have : L.getLast?.isSome := by
        rw [List.getLast?_isSome]
        exact hLne
      rw [he] at this
      simp at this
    | some x => exact ⟨x, rfl⟩
  obtain ⟨ti, hti⟩ := hgl
  obtain ⟨tn, htn, hctn, hrt⟩ := removeTail_eq_del h hti
  refine ⟨ti, tn, by rw [h.tail_eq, hti], htn, ?_⟩
  intro k'
  rw [hrt]
  exact del_cache_lookup h tn.key k'

/-- C3: a get on a live key promotes it to most-recently-used: with
capacity 3 and no time passing, after set A, set B, set C, get A, set D,
the keys A, C, D are present and B is absent (B was least-recently-used
after A's promotion), and the cache still holds 3 entries. -/
theorem claim_c3_recency_promotion :
    (get (runOps (mkLRUCache Nat 3 60)
        [Op.opSet 0 "A" 1, Op.opSet 0 "B" 2, Op.opSet 0 "C" 3]) 0 0 0 "A").1 = some 1 ∧
    ((alookup (runOps (mkLRUCache Nat 3 60)
        [Op.opSet 0 "A" 1, Op.opSet 0 "B" 2, Op.opSet 0 "C" 3,
         Op.opGet 0 0 0 "A", Op.opSet 0 "D" 4]).cache "A").isSome = true) ∧
    (alookup (runOps (mkLRUCache Nat 3 60)
        [Op.opSet 0 "A" 1, Op.opSet 0 "B" 2, Op.opSet 0 "C" 3,
         Op.opGet 0 0 0 "A", Op.opSet 0 "D" 4]).cache "B" = none) ∧
    ((alookup (runOps (mkLRUCache Nat 3 60)
        [Op.opSet 0 "A" 1, Op.opSet 0 "B" 2, Op.opSet 0 "C" 3,
         Op.opGet 0 0 0 "A", Op.opSet 0 "D" 4]).cache "C").isSome = true) ∧
    ((alookup (runOps (mkLRUCache Nat 3 60)
        [Op.opSet 0 "A" 1, Op.opSet 0 "B" 2, Op.opSet 0 "C" 3,
         Op.opGet 0 0 0 "A", Op.opSet 0 "D" 4]).cache "D").isSome = true) ∧
    (getStats (runOps (mkLRUCache Nat 3 60)
        [Op.opSet 0 "A" 1, Op.opSet 0 "B" 2, Op.opSet 0 "C" 3,
         Op.opGet 0 0 0 "A", Op.opSet 0 "D" 4])).size = 3 := by
  refine ⟨rfl, rfl, rfl, rfl, rfl, rfl⟩

/-- C8: `clear()` empties the index and the recency list (size 0, every
subsequent get misses), empties the rolling latency window, and leaves
the hit and miss counters, the capacity and the TTL configuration exactly
as they were before the call. -/
theorem claim_c8_clear_frame (V : Type) (s : LRU V) (t0 t1 t2 : Int) (k : Key) :
    (clear s).cache = [] ∧ (clear s).head = none ∧ (clear s).tail = none ∧
    (getStats (clear s)).size = 0 ∧ (clear s).responseTimes = [] ∧
    (getStats (clear s)).hits = s.hits ∧ (getStats (clear s)).misses = s.misses ∧
    (clear s).capacity = s.capacity ∧ (clear s).ttl = s.ttl ∧
    (get (clear s) t0 t1 t2 k).1 = none ∧
    (get (clear s) t0 t1 t2 k).2.misses = s.misses + 1 ∧
    (get (clear s) t0 t1 t2 k).2.hits = s.hits := by
  exact ⟨rfl, rfl, rfl, rfl, rfl, rfl, rfl, rfl, rfl, rfl, rfl, rfl⟩

/-- C4: on a well-formed cache, a `get` of a key whose age strictly
exceeds the TTL removes the entry from the index and from the recency
list, increments the miss counter (hits unchanged), appends exactly one
latency sample to the rolling window, and returns the not-found result
(`none`), exactly as for an absent key; other entries are untouched, and
the call is total (no exception). -/
theorem claim_c4_expired_get_is_miss (V : Type) (s : LRU V) (L : List NodeId)
    (t0 t1 t2 : Int) (k : Key) (i : NodeId) (n : Node V)
    (h : WF s L) (hk : alookup s.cache k = some i) (hn : alookup s.arena i = some n)
    (hexp : t1 - n.timestamp > s.ttl) :
    (get s t0 t1 t2 k).1 = none ∧
    alookup (get s t0 t1 t2 k).2.cache k = none ∧
    (∀ k', k' ≠ k → alookup (get s t0 t1 t2 k).2.cache k' = alookup s.cache k') ∧
    (get s t0 t1 t2 k).2.misses = s.misses + 1 ∧
    (get s t0 t1 t2 k).2.hits = s.hits ∧
    (get s t0 t1 t2 k).2.responseTimes =
      (if (s.responseTimes ++ [t2 - t0]).length > 100
        then (s.responseTimes ++ [t2 - t0]).drop 1 else s.responseTimes ++ [t2 - t0]) ∧
    (∃ L', WF (get s t0 t1 t2 k).2 L' ∧ i ∉ L') := by
  obtain ⟨hret, A, B, hLs, hwf, hcache, hmiss, hhits, hresp, _, _, _⟩ :=
    get_expired_wf t0 t1 t2 h hk hn hexp
  obtain ⟨A', B', hLs', _, _, hcD, _⟩ := del_wf h hk
  have hchar : ∀ k', alookup (get s t0 t1 t2 k).2.cache k' =
      if k' = k then none else alookup s.cache k' := by
    intro k'
    rw [hcache, ← hcD]
    exact del_cache_lookup h k k'
  have hiAB : i ∉ A ++ B := by
    rw [hLs] at h
    intro hmem'
    rcases List.mem_append.mp hmem' with h' | h'
    · exact (List.nodup_append.mp h.nodup).2.2 h' (List.mem_cons_self _ _)
    · exact (List.nodup_cons.mp (List.nodup_append.mp h.nodup).2.1).1 h'
  refine ⟨hret, ?_, ?_, hmiss, hhits, hresp, A ++ B, hwf, hiAB⟩
  · rw [hchar k]
    simp
  · intro k' hk'
    rw [hchar k']
    simp [hk']

/-- C5 counterexample: the spec claims that every `get` of a live entry
refreshes the stored timestamp to the current time; the source's `get`
only relinks the node and never writes `timestamp`.  With TTL 1s: set K
at time 0, get K at 500 (a hit) leaves the timestamp at 0 (not 500), so a
second get at 1100 misses even though only 600ms passed since the read. -/
theorem claim_c5_counterexample :
    (get (set (mkLRUCache Nat 3 1) 0 "K" 7) 500 500 500 "K").1 = some 7 ∧
    ((alookup (get (set (mkLRUCache Nat 3 1) 0 "K" 7) 500 500 500 "K").2.arena 0).map
      Node.timestamp = some 0) ∧
    ((alookup (get (set (mkLRUCache Nat 3 1) 0 "K" 7) 500 500 500 "K").2.arena 0).map
      Node.timestamp ≠ some 500) ∧
    (get (get (set (mkLRUCache Nat 3 1) 0 "K" 7) 500 500 500 "K").2 1100 1100 1100 "K").1
      = none := by
  refine ⟨rfl, rfl, ?_, rfl⟩
  decide

/-- C5 amended: a `get` of a live, non-expired entry promotes the entry
to most-recently-used and returns its value, but does NOT refresh the
stored timestamp: key, value and timestamp are all unchanged, so TTL age
keeps being measured from the last `set`. -/
theorem claim_c5_get_does_not_refresh_timestamp (V : Type) (s : LRU V) (L : List NodeId)
    (t0 t1 t2 : Int) (k : Key) (i : NodeId) (n : Node V)
    (h : WF s L) (hk : alookup s.cache k = some i) (hn : alookup s.arena i = some n)
    (hlive : ¬ (t1 - n.timestamp > s.ttl)) :
    (get s t0 t1 t2 k).1 = some n.value ∧
    alookup (get s t0 t1 t2 k).2.cache k = some i ∧
    ∃ n', alookup (get s t0 t1 t2 k).2.arena i = some n' ∧
      n'.timestamp = n.timestamp ∧ n'.key = n.key ∧ n'.value = n.value := by
  obtain ⟨hret, A, B, hLs, hwf, hcache, _, _, _, hpay, _, _, _⟩ :=
    get_hit_wf t0 t1 t2 h hk hn hlive
  obtain ⟨n', hn', hk', hv', ht'⟩ := payload_lookup_transfer (hpay i) hn
  exact ⟨hret, by rw [hcache]; exact hk, n', hn', ht', hk', hv'⟩

/-- C6 counterexample: the spec claims invalid configuration (capacity ≤
0, negative TTL) fails at construction time; the source constructor
performs no validation.  `new LRUCache(0, -1)` produces a working
instance that records the invalid configuration and serves operations
(with capacity 0, an inserted entry is immediately evicted again). -/
theorem claim_c6_counterexample :
    (mkLRUCache Nat 0 (-1)).capacity = 0 ∧
    (mkLRUCache Nat 0 (-1)).ttl = -1000 ∧
    (get (mkLRUCache Nat 0 (-1)) 0 0 0 "x").1 = none ∧
    (set (mkLRUCache Nat 0 (-1)) 0 "a" 1).cache = [] ∧
    (set (mkLRUCache Nat 0 (-1)) 0 "a" 1).statsSize = 0 := by
  exact ⟨rfl, rfl, rfl, rfl, rfl⟩

/-- C6 amended: the constructor performs no validation: a capacity ≤ 0 or
a negative TTL is accepted and stored as given (`ttl = ttlSeconds *
1000`), and the resulting instance is an ordinary empty, well-formed
cache rather than a construction-time failure. -/
theorem claim_c6_no_constructor_validation (V : Type) (c t : Int)
    (_hinvalid : c ≤ 0 ∨ t < 0) :
    (mkLRUCache V c t).capacity = c ∧ (mkLRUCache V c t).ttl = t * 1000 ∧
    WF (mkLRUCache V c t) [] ∧ (getStats (mkLRUCache V c t)).size = 0 :=
  ⟨rfl, rfl, wf_mkLRUCache c t, rfl⟩

theorem foldl_add_eq_sum (l : List Int) : l.foldl (· + ·) 0 = l.sum := by
  suffices hgen : ∀ a : Int, l.foldl (· + ·) a = a + l.sum by
    rw [hgen 0, zero_add]
  induction l with
  | nil => intro a; simp
  | cons x l ih =>
    intro a
    simp only [List.foldl_cons, List.sum_cons, ih (a + x)]
    ring

/-- C7 counterexample: the spec claims both `get` and `set` each record
one duration sample; the source's `set` never calls
`recordResponseTime`.  After one `set` on a fresh cache the window is
empty (the claim predicts one sample) and the average is zero. -/
theorem claim_c7_counterexample :
    (set (mkLRUCache Nat 3 60) 5 "a" 1).responseTimes = [] ∧
    (set (mkLRUCache Nat 3 60) 5 "a" 1).responseTimes.length = 0 ∧
    (getStats (set (mkLRUCache Nat 3 60) 5 "a" 1)).averageResponseTime = 0 :=
  ⟨rfl, rfl, rfl⟩

/-- C7 amended: `getStats().averageResponseTime` is the arithmetic mean,
rounded JS-style to two decimal places (`Math.round(mean*100)/100`), of
the at most 100 most recent recorded durations, where each `get` (hit,
miss or expiry) records exactly one duration sample and `set` records
none; with no samples the average is zero. -/
theorem claim_c7_average_of_get_samples :
    (∀ (V : Type) (s : LRU V), s.responseTimes = [] →
      (getStats s).averageResponseTime = 0) ∧
    (∀ (V : Type) (s : LRU V) (t : Int) (k : Key) (v : V),
      (set s t k v).responseTimes = s.responseTimes) ∧
    (∀ (V : Type) (s : LRU V) (L : List NodeId) (t0 t1 t2 : Int) (k : Key), WF s L →
      (get s t0 t1 t2 k).2.responseTimes =
        (if (s.responseTimes ++ [t2 - t0]).length > 100
          then (s.responseTimes ++ [t2 - t0]).drop 1 else s.responseTimes ++ [t2 - t0])) ∧
    (∀ (V : Type) (c ttlS : Int) (ops : List (Op V)),
      ((runOps (mkLRUCache V c ttlS) ops).responseTimes).length ≤ 100) ∧
    (∀ (V : Type) (s : LRU V), s.responseTimes ≠ [] →
      (getStats s).averageResponseTime =
        (jsRound ((s.responseTimes.sum : ℚ) / s.responseTimes.length * 100) : ℚ) / 100) := by
  refine ⟨?_, ?_, ?_, ?_, ?_⟩
  · intro V s hresp
    show calculateAverageResponseTime s = 0
    rw [calculateAverageResponseTime, if_pos (by rw [hresp]; rfl)]
  · intro V s t k v
    exact set_responseTimes s t k v
  · intro V s L t0 t1 t2 k h
    cases hk : alookup s.cache k with
    | none =>
      rw [get_absent_eq s t0 t1 t2 k hk]
      rfl
    | some i =>
      have hiL : i ∈ L :=
        h.ids_perm.subset (List.mem_map.mpr ⟨(k, i), mem_of_alookup hk, rfl⟩)
      obtain ⟨n, hn⟩ := chainSeg_lookup_isSome h.chain hiL
      by_cases hexp : t1 - n.timestamp > s.ttl
      · obtain ⟨_, A, B, _, _, _, _, _, hresp, _⟩ := get_expired_wf t0 t1 t2 h hk hn hexp
        exact hresp
      · obtain ⟨_, A, B, _, _, _, _, _, hresp, _⟩ := get_hit_wf t0 t1 t2 h hk hn hexp
        exact hresp
  · intro V c ttlS ops
    exact runOps_resp_bound ops (mkLRUCache V c ttlS) (by simp [mkLRUCache])
  · intro V s hresp
    show calculateAverageResponseTime s = _
    rw [calculateAverageResponseTime,
      if_neg (fun hc => hresp (List.length_eq_zero.mp hc)), foldl_add_eq_sum]

/-- C9: `delete(key)` returns `true` and decreases the live entry count
by exactly one when the key is present (removing it from both the index
and the recency list, leaving other entries untouched), and returns
`false` leaving the state entirely unchanged when the key is absent; a
second delete of the same key therefore returns `false`. -/
theorem claim_c9_delete_semantics (V : Type) (s : LRU V) (L : List NodeId) (k : Key)
    (h : WF s L) :
    (∀ i, alookup s.cache k = some i →
      (del s k).1 = true ∧
      (del s k).2.cache.length + 1 = s.cache.length ∧
      (del s k).2.statsSize = s.statsSize - 1 ∧
      alookup (del s k).2.cache k = none ∧
      (∀ k', k' ≠ k → alookup (del s k).2.cache k' = alookup s.cache k') ∧
      (∃ L', WF (del s k).2 L' ∧ i ∉ L') ∧
      (del (del s k).2 k).1 = false) ∧
    (alookup s.cache k = none → del s k = (false, s)) := by
  constructor
  · intro i hk
    obtain ⟨A, B, hLs, htrue, hwf, hcD, _, _, _, _, _, _, _, hss⟩ := del_wf h hk
    have hchar := del_cache_lookup h k
    have hiAB : i ∉ A ++ B := by
      rw [hLs] at h
      intro hmem'
      rcases List.mem_append.mp hmem' with h' | h'
      · exact (List.nodup_append.mp h.nodup).2.2 h' (List.mem_cons_self _ _)
      · exact (List.nodup_cons.mp (List.nodup_append.mp h.nodup).2.1).1 h'
    have hlen : (del s k).2.cache.length + 1 = s.cache.length := by
      rw [hcD]
      have := (perm_aerase hk).length_eq
      simp only [List.length_cons] at this
      omega
    have hnone : alookup (del s k).2.cache k = none := by
      rw [hchar k]
      simp
    refine ⟨htrue, hlen, hss, hnone, ?_, ⟨A ++ B, hwf, hiAB⟩, ?_⟩
    · intro k' hk'
      rw [hchar k']
      simp [hk']
    · rw [del_absent _ _ hnone]
  · intro hk
    exact del_absent s k hk

/-- C10: an entry whose age is exactly the TTL is still live — the expiry
comparison is strict (`>`), in both the passive path (`get`) and the
background sweep (`cleanupExpired`): a get at age exactly `ttl` returns
the stored value and counts a hit, and a sweep at age exactly `ttl` keeps
the entry; only an age strictly greater than `ttl` removes it. -/
theorem claim_c10_ttl_boundary_is_strict (V : Type) (s : LRU V) (L : List NodeId)
    (t0 t1 t2 now now2 : Int) (k : Key) (i : NodeId) (n : Node V)
    (h : WF s L) (hk : alookup s.cache k = some i) (hn : alookup s.arena i = some n)
    (hb : t1 - n.timestamp = s.ttl) (hbs : now - n.timestamp = s.ttl)
    (hgt : now2 - n.timestamp > s.ttl) :
    (get s t0 t1 t2 k).1 = some n.value ∧
    (get s t0 t1 t2 k).2.hits = s.hits + 1 ∧
    (get s t0 t1 t2 k).2.misses = s.misses ∧
    alookup (get s t0 t1 t2 k).2.cache k = some i ∧
    alookup (cleanupExpired s now).cache k = some i ∧
    alookup (cleanupExpired s now2).cache k = none := by
  have hlive : ¬ (t1 - n.timestamp > s.ttl) := by
    rw [hb]
    exact lt_irrefl _
  obtain ⟨hret, A, B, _, _, hcache, hhits, hmiss, _⟩ := get_hit_wf t0 t1 t2 h hk hn hlive
  refine ⟨hret, hhits, hmiss, by rw [hcache]; exact hk, ?_, ?_⟩
  · rw [cleanupExpired_lookup h now hk hn,
      if_neg (by rw [hbs]; exact lt_irrefl _)]
  · rw [cleanupExpired_lookup h now2 hk hn, if_pos hgt]

/-- A concrete well-formed state: a fresh capacity-3, TTL-1s cache after
one `set("K", 7)` at time 0. -/
theorem wf_singleton_example : WF (set (mkLRUCache Nat 3 1) 0 "K" 7) [0] := by
  constructor
  · exact ⟨{ key := "K", value := 7, timestamp := 0, prev := none, next := none },
      rfl, rfl, rfl, trivial⟩
  · rfl
  · rfl
  · decide
  · exact List.Perm.refl _
  · decide
  · intro p hp
    have hp' : p ∈ [("K", (0 : NodeId))] := hp
    rw [List.mem_singleton] at hp'
    subst hp'
    exact ⟨{ key := "K", value := 7, timestamp := 0, prev := none, next := none }, rfl, rfl⟩
  · decide
  · decide

theorem claim_c1_capacity_invariant_witness :
    ((1 : Int) ≤ 1) ∧
    (getStats (set (mkLRUCache Nat 1 60) 0 "a" 5)).size ≤ 1 ∧
    alookup (set (set (mkLRUCache Nat 1 60) 0 "a" 5) 1 "b" 6).cache "a" = none ∧
    (alookup (set (set (mkLRUCache Nat 1 60) 0 "a" 5) 1 "b" 6).cache "b").isSome = true := by
  have h := claim_c1_capacity_invariant Nat 1 60 (by norm_num) [(0, "a", 5)] _ rfl
  obtain ⟨hsize, _, hev⟩ := h
  obtain ⟨ti, tn, htail, htn, _, hchar⟩ := hev 1 "b" 6 rfl (by decide)
  have hti : some (0 : NodeId) = some ti := htail
  obtain rfl := (Option.some.inj hti).symm
  have htn' : some ({ key := "a", value := 5, timestamp := 0, prev := none, next := none } : Node Nat) = some tn := htn
  obtain rfl := (Option.some.inj htn').symm
  refine ⟨by norm_num, hsize, ?_, ?_⟩
  · simpa using hchar "a"
  · have hb := hchar "b"
    rw [if_neg (show ¬ (("b" : Key) = ({ key := "a", value := 5, timestamp := 0, prev := none, next := none } : Node Nat).key) from by decide),
      if_pos rfl] at hb
    show (alookup (set (List.foldl (fun st p => set st p.1 p.2.1 p.2.2) (mkLRUCache Nat 1 60) [(0, "a", 5)]) 1 "b" 6).cache "b").isSome = true
    rw [hb]
    rfl

theorem claim_c2_index_list_bijection_witness :
    ((1 : Int) ≤ 2) ∧
    alookup (removeTail (runOps (mkLRUCache Nat 2 60) [Op.opSet 0 "x" 5])).cache "x"
      = none := by
  have h := claim_c2_index_list_bijection Nat 2 60 (by norm_num) [Op.opSet 0 "x" 5] _ rfl
  obtain ⟨L, hwf, hcl⟩ := h
  obtain ⟨ti, tn, htail, htn, hchar⟩ := hcl (by decide)
  have hti : some (0 : NodeId) = some ti := htail
  obtain rfl := (Option.some.inj hti).symm
  have htn' : some ({ key := "x", value := 5, timestamp := 0, prev := none, next := none } : Node Nat) = some tn := htn
  obtain rfl := (Option.some.inj htn').symm
  refine ⟨by norm_num, ?_⟩
  simpa using hchar "x"

theorem claim_c4_expired_get_is_miss_witness :
    ((1100 : Int) - 0 > 1000) ∧
    (get (set (mkLRUCache Nat 3 1) 0 "K" 7) 1100 1100 1105 "K").1 = none ∧
    alookup (get (set (mkLRUCache Nat 3 1) 0 "K" 7) 1100 1100 1105 "K").2.cache "K"
      = none ∧
    (get (set (mkLRUCache Nat 3 1) 0 "K" 7) 1100 1100 1105 "K").2.misses = 1 ∧
    (get (set (mkLRUCache Nat 3 1) 0 "K" 7) 1100 1100 1105 "K").2.hits = 0 ∧
    (get (set (mkLRUCache Nat 3 1) 0 "K" 7) 1100 1100 1105 "K").2.responseTimes = [5] := by
  have h := claim_c4_expired_get_is_miss Nat (set (mkLRUCache Nat 3 1) 0 "K" 7) [0]
    1100 1100 1105 "K" 0
    { key := "K", value := 7, timestamp := 0, prev := none, next := none }
    wf_singleton_example rfl rfl (by decide)
  exact ⟨by decide, h.1, h.2.1, h.2.2.2.1, h.2.2.2.2.1, h.2.2.2.2.2.1⟩

theorem claim_c5_get_does_not_refresh_timestamp_witness :
    (¬ ((500 : Int) - 0 > 1000)) ∧
    (get (set (mkLRUCache Nat 3 1) 0 "K" 7) 500 500 500 "K").1 = some 7 ∧
    (∃ n', alookup (get (set (mkLRUCache Nat 3 1) 0 "K" 7) 500 500 500 "K").2.arena 0
      = some n' ∧ n'.timestamp = 0) := by
  have h := claim_c5_get_does_not_refresh_timestamp Nat (set (mkLRUCache Nat 3 1) 0 "K" 7)
    [0] 500 500 500 "K" 0
    { key := "K", value := 7, timestamp := 0, prev := none, next := none }
    wf_singleton_example rfl rfl (by decide)
  obtain ⟨hret, _, n', hn', ht', _, _⟩ := h
  exact ⟨by decide, hret, n', hn', ht'⟩

theorem claim_c6_no_constructor_validation_witness :
    ((0 : Int) ≤ 0 ∨ (-1 : Int) < 0) ∧
    ((mkLRUCache Nat 0 (-1)).capacity = 0 ∧ (mkLRUCache Nat 0 (-1)).ttl = (-1) * 1000 ∧
      WF (mkLRUCache Nat 0 (-1)) [] ∧ (getStats (mkLRUCache Nat 0 (-1))).size = 0) :=
  ⟨Or.inl le_rfl, claim_c6_no_constructor_validation Nat 0 (-1) (Or.inl le_rfl)⟩

theorem claim_c7_average_of_get_samples_witness :
    (set (mkLRUCache Nat 2 60) 1 "x" 5).responseTimes = (mkLRUCache Nat 2 60).responseTimes ∧
    ((runOps (mkLRUCache Nat 2 60) [Op.opGet 0 0 7 "q"]).responseTimes).length ≤ 100 ∧
    (getStats (recordResponseTime (mkLRUCache Nat 2 60) 4)).averageResponseTime = 4 := by
  obtain ⟨h0, hset, hget, hbound, hmean⟩ := claim_c7_average_of_get_samples
  refine ⟨hset Nat _ 1 "x" 5, hbound Nat 2 60 _, ?_⟩
  rw [hmean Nat _ (by decide)]
  show (jsRound ((([(4 : Int)].sum : Int) : ℚ) / ([(4 : Int)].length) * 100) : ℚ) / 100 = 4
  norm_num [jsRound]

theorem claim_c9_delete_semantics_witness :
    (del (set (mkLRUCache Nat 3 1) 0 "K" 7) "K").1 = true ∧
    alookup (del (set (mkLRUCache Nat 3 1) 0 "K" 7) "K").2.cache "K" = none ∧
    (del (del (set (mkLRUCache Nat 3 1) 0 "K" 7) "K").2 "K").1 = false := by
  have h := claim_c9_delete_semantics Nat (set (mkLRUCache Nat 3 1) 0 "K" 7) [0] "K"
    wf_singleton_example
  exact ⟨(h.1 0 rfl).1, (h.1 0 rfl).2.2.2.1, (h.1 0 rfl).2.2.2.2.2.2⟩

theorem claim_c10_ttl_boundary_is_strict_witness :
    ((1000 : Int) - 0 = 1000) ∧
    (get (set (mkLRUCache Nat 3 1) 0 "K" 7) 0 1000 1000 "K").1 = some 7 ∧
    (get (set (mkLRUCache Nat 3 1) 0 "K" 7) 0 1000 1000 "K").2.hits = 1 ∧
    alookup (cleanupExpired (set (mkLRUCache Nat 3 1) 0 "K" 7) 1000).cache "K" = some 0 ∧
    alookup (cleanupExpired (set (mkLRUCache Nat 3 1) 0 "K" 7) 1500).cache "K" = none := by
  have h := claim_c10_ttl_boundary_is_strict Nat (set (mkLRUCache Nat 3 1) 0 "K" 7) [0]
    0 1000 1000 1000 1500 "K" 0
    { key := "K", value := 7, timestamp := 0, prev := none, next := none }
    wf_singleton_example rfl rfl (by decide) (by decide) (by decide)
  exact ⟨by decide, h.1, h.2.1, h.2.2.2.2.1, h.2.2.2.2.2⟩

end LRUSpec
